import Mathlib

set_option maxRecDepth 4000

/-!
Verification of the schema-driven casting / unmarshalling engine of the
`openapi-core` repository (`openapi_core/schema/schemas/models.py`), via a
shallow embedding in Lean 4.

Modelling conventions:
* Python runtime values are embedded as `PyVal` (JSON-like values plus `None`);
  Python `float` is modelled exactly as `Rat`.
* Python `dict`s are association lists with first-match lookup and in-place
  update (`updateOne` / `dictUpdate` mirror `dict.__setitem__` / `dict.update`).
* Fallible Python code is embedded as `Except`; the distinct exception classes
  that the source catches are separate error constructors.
* `log.warning` calls are modelled as an explicit warning list threaded through
  the unmarshalling functions, so that warnings are observable in theorems.
* Code of the repository that is not part of the given sources (the primitive
  unmarshallers, the object/array unmarshallers, `forcebool`, the `SchemaType`
  enum, `re.compile`) is modelled from the specification; each such definition
  carries a doc comment starting with `Modelled from the spec:`.
-/

/-- Embedded Python runtime values: `None`, strings, ints, floats (as exact
rationals), booleans, lists and string-keyed dicts. -/
inductive PyVal where
  | none
  | str (s : String)
  | int (n : Int)
  | float (q : Rat)
  | bool (b : Bool)
  | list (xs : List PyVal)
  | dict (xs : List (String × PyVal))

/-- Whether a `PyVal` is Python's `None` (the `value is None` test). -/
def PyVal.isNone : PyVal → Bool
  | .none => true
  | _ => false

/-- Modelled from the spec: the `SchemaType` enumeration of
`openapi_core.schema.schemas.enums` (not among the given sources).  Spec §3:
"`type` (one of: string, number, integer, boolean, array, object, any)". -/
inductive SchemaType where
  | any
  | integer
  | number
  | string
  | boolean
  | array
  | object
deriving DecidableEq

/-- Modelled from the spec: the opaque compiled form produced by `re.compile`
(the Python `re` module is outside the repository).  Spec §3: "`pattern`, once
set, is a validated compiled form". -/
structure CompiledPattern where
  source : String
deriving DecidableEq

/-- The fields of a Schema node, parametric in the schema type so that
`Schema` below can tie the recursive knot.  Field set and defaults follow
`Schema.__init__` of `openapi_core/schema/schemas/models.py` (the state after
a successful construction). -/
structure SchemaData (S : Type) where
  type : SchemaType := .any
  properties : List (String × S) := []
  items : Option S := Option.none
  format : Option String := Option.none
  required : List String := []
  default : Option PyVal := Option.none
  nullable : Bool := false
  enum : Option (List PyVal) := Option.none
  deprecated : Bool := false
  all_of : List S := []
  one_of : List S := []
  additional_properties : Sum Bool S := Sum.inl true
  min_items : Option PyVal := Option.none
  max_items : Option PyVal := Option.none
  min_length : Option PyVal := Option.none
  max_length : Option PyVal := Option.none
  pattern : Option CompiledPattern := Option.none
  unique_items : Bool := false
  minimum : Option PyVal := Option.none
  maximum : Option PyVal := Option.none
  multiple_of : Option PyVal := Option.none
  exclusive_minimum : Bool := false
  exclusive_maximum : Bool := false
  min_properties : Option PyVal := Option.none
  max_properties : Option PyVal := Option.none
  extensions : List (String × PyVal) := []

/-- A Schema node (`class Schema` of the source): one schema fragment of the
parsed specification tree. -/
inductive Schema where
  | mk (data : SchemaData Schema)

/-- The field record of a schema node. -/
def Schema.data : Schema → SchemaData Schema
  | .mk d => d

/-- The resolved `type` attribute. -/
def Schema.type (s : Schema) : SchemaType := s.data.type

/-- The `properties` attribute (a Python dict, name to child schema). -/
def Schema.properties (s : Schema) : List (String × Schema) := s.data.properties

/-- The `items` attribute (child schema of an array schema). -/
def Schema.items (s : Schema) : Option Schema := s.data.items

/-- The `format` attribute. -/
def Schema.format (s : Schema) : Option String := s.data.format

/-- The `required` attribute (list of required property names). -/
def Schema.required (s : Schema) : List String := s.data.required

/-- The `all_of` attribute (ordered composition list). -/
def Schema.all_of (s : Schema) : List Schema := s.data.all_of

/-- The `one_of` attribute (ordered alternative list). -/
def Schema.one_of (s : Schema) : List Schema := s.data.one_of

/-- The `additional_properties` attribute (a bool or a schema). -/
def Schema.additional_properties (s : Schema) : Sum Bool Schema :=
  s.data.additional_properties

/-- The `pattern` attribute after construction. -/
def Schema.pattern (s : Schema) : Option CompiledPattern := s.data.pattern

/-- The `minimum` attribute after construction. -/
def Schema.minimum (s : Schema) : Option PyVal := s.data.minimum

/-- The `maximum` attribute after construction. -/
def Schema.maximum (s : Schema) : Option PyVal := s.data.maximum

/-- The `multiple_of` attribute after construction. -/
def Schema.multiple_of (s : Schema) : Option PyVal := s.data.multiple_of

/-- The `min_length` attribute after construction. -/
def Schema.min_length (s : Schema) : Option PyVal := s.data.min_length

/-- The `max_length` attribute after construction. -/
def Schema.max_length (s : Schema) : Option PyVal := s.data.max_length

/-- The `min_items` attribute after construction. -/
def Schema.min_items (s : Schema) : Option PyVal := s.data.min_items

/-- The `max_items` attribute after construction. -/
def Schema.max_items (s : Schema) : Option PyVal := s.data.max_items

/-- The `min_properties` attribute after construction. -/
def Schema.min_properties (s : Schema) : Option PyVal := s.data.min_properties

/-- The `max_properties` attribute after construction. -/
def Schema.max_properties (s : Schema) : Option PyVal := s.data.max_properties

theorem sizeOf_data_lt (s : Schema) : sizeOf s.data < sizeOf s := by
  cases s with
  | mk d => simp [Schema.data]

theorem sizeOf_all_of_lt (s : Schema) : sizeOf s.all_of < sizeOf s := by
  cases s with
  | mk d => cases d; simp [Schema.all_of, Schema.data]; omega

theorem sizeOf_one_of_lt (s : Schema) : sizeOf s.one_of < sizeOf s := by
  cases s with
  | mk d => cases d; simp [Schema.one_of, Schema.data]; omega

theorem sizeOf_properties_lt (s : Schema) : sizeOf s.properties < sizeOf s := by
  cases s with
  | mk d => cases d; simp [Schema.properties, Schema.data]; omega

theorem sizeOf_items_lt (s it : Schema) (h : s.items = some it) :
    sizeOf it < sizeOf s := by
  cases s with
  | mk d =>
    cases d
    simp [Schema.items, Schema.data] at h
    subst h
    simp
    omega

theorem sizeOf_additional_properties_lt (s ap : Schema)
    (h : s.additional_properties = Sum.inr ap) : sizeOf ap < sizeOf s := by
  cases s with
  | mk d =>
    cases d
    simp [Schema.additional_properties, Schema.data] at h
    subst h
    simp
    omega

theorem sizeOf_mem_all_of (s sub : Schema) (h : sub ∈ s.all_of) :
    sizeOf sub < sizeOf s := by
  have h1 := List.sizeOf_lt_of_mem h
  have h2 := sizeOf_all_of_lt s
  omega

theorem sizeOf_mem_one_of (s sub : Schema) (h : sub ∈ s.one_of) :
    sizeOf sub < sizeOf s := by
  have h1 := List.sizeOf_lt_of_mem h
  have h2 := sizeOf_one_of_lt s
  omega

theorem sizeOf_mem_properties (s : Schema) (kv : String × Schema)
    (h : kv ∈ s.properties) : sizeOf kv.2 < sizeOf s := by
  have h1 := List.sizeOf_lt_of_mem h
  have h2 := sizeOf_properties_lt s
  have h3 : sizeOf kv.2 < sizeOf kv := by
    cases kv with
    | mk a b =>
      show sizeOf b < sizeOf (a, b)
      simp only [Prod.mk.sizeOf_spec]
      omega
  omega

/-- First-match lookup in an association list: Python `d[k]` / `k in d` on a
dict represented as an ordered association list. -/
def dictLookup (l : List (String × Schema)) (k : String) : Option Schema :=
  (l.find? (fun p => p.1 = k)).map (fun p => p.2)

/-- Python `d[k] = v` on an ordered-association-list dict: replace the value in
place when the key exists, append otherwise. -/
def updateOne (d : List (String × Schema)) (k : String) (v : Schema) :
    List (String × Schema) :=
  if d.any (fun p => p.1 = k) then d.map (fun p => if p.1 = k then (k, v) else p)
  else d ++ [(k, v)]

/-- Python `d.update(e)`: insert every entry of `e`, in order, into `d`. -/
def dictUpdate (d e : List (String × Schema)) : List (String × Schema) :=
  e.foldl (fun acc p => updateOne acc p.1 p.2) d

theorem dictLookup_cons (p : String × Schema) (l : List (String × Schema))
    (q : String) :
    dictLookup (p :: l) q = if p.1 = q then some p.2 else dictLookup l q := by
  by_cases h : p.1 = q <;> simp [dictLookup, List.find?, h]

theorem dictLookup_append (d e : List (String × Schema)) (q : String) :
    dictLookup (d ++ e) q =
      match dictLookup d q with
      | some v => some v
      | Option.none => dictLookup e q := by
  induction d with
  | nil => simp [dictLookup]
  | cons p rest ih =>
    by_cases h : p.1 = q <;> simp [dictLookup_cons, h, ih]

theorem dictLookup_eq_none (d : List (String × Schema)) (k : String)
    (h : d.any (fun p => p.1 = k) = false) : dictLookup d k = Option.none := by
  induction d with
  | nil => simp [dictLookup]
  | cons p rest ih =>
    simp only [List.any_cons, Bool.or_eq_false_iff, decide_eq_false_iff_not] at h
    simp [dictLookup_cons, h.1, ih h.2]

theorem dictLookup_map_replace (d : List (String × Schema)) (k : String)
    (v : Schema) (q : String) :
    dictLookup (d.map (fun p => if p.1 = k then (k, v) else p)) q =
      if q = k then (if d.any (fun p => p.1 = k) then some v else Option.none)
      else dictLookup d q := by
  induction d with
  | nil => by_cases hq : q = k <;> simp [dictLookup, hq]
  | cons p rest ih =>
    simp only [List.map_cons, List.any_cons]
    by_cases hpk : p.1 = k
    · rw [if_pos hpk, dictLookup_cons, dictLookup_cons]
      by_cases hq : q = k
      · subst hq; simp [ih, hpk]
      · have hkq : ¬ (k = q) := fun h => hq h.symm
        have hpq : ¬ (p.1 = q) := by rw [hpk]; exact hkq
        simp [hkq, hpq, ih, hq]
    · rw [if_neg hpk, dictLookup_cons]
      by_cases hq : q = k
      · subst hq
        have hdec : (decide (p.1 = q)) = false := decide_eq_false hpk
        simp only [hdec, Bool.false_or]
        simp [hpk, ih]
      · by_cases hpq : p.1 = q
        · simp [hpq, hq, dictLookup_cons]
        · simp [hpq, hq, ih, dictLookup_cons]

theorem dictLookup_updateOne (d : List (String × Schema)) (k : String)
    (v : Schema) (q : String) :
    dictLookup (updateOne d k v) q = if q = k then some v else dictLookup d q := by
  unfold updateOne
  by_cases hany : d.any (fun p => p.1 = k)
  · rw [if_pos hany, dictLookup_map_replace]
    by_cases hq : q = k <;> simp [hq, hany]
  · rw [if_neg hany, dictLookup_append]
    have hfalse : d.any (fun p => p.1 = k) = false := by
      revert hany; cases d.any (fun p => p.1 = k) <;> simp
    by_cases hq : q = k
    · subst hq
      rw [dictLookup_eq_none d q hfalse]
      simp [dictLookup_cons]
    · have hkq : ¬ (k = q) := fun h => hq h.symm
      cases h : dictLookup d q <;> simp [h, dictLookup_cons, hkq, hq, dictLookup]

theorem dictLookup_dictUpdate (d e : List (String × Schema)) (q : String) :
    dictLookup (dictUpdate d e) q =
      match dictLookup e.reverse q with
      | some v => some v
      | Option.none => dictLookup d q := by
  induction e generalizing d with
  | nil => simp [dictUpdate, dictLookup]
  | cons p rest ih =>
    show dictLookup (dictUpdate (updateOne d p.1 p.2) rest) q = _
    rw [ih]
    have hrev : (p :: rest).reverse = rest.reverse ++ [p] := by simp
    rw [hrev, dictLookup_append]
    cases h : dictLookup rest.reverse q with
    | none =>
      rw [dictLookup_updateOne]
      by_cases hq : q = p.1
      · rw [if_pos hq, dictLookup_cons, if_pos hq.symm]
      · have hpq : ¬ (p.1 = q) := fun hh => hq hh.symm
        rw [if_neg hq, dictLookup_cons, if_neg hpq]
        simp [dictLookup]
    | some v => simp

theorem attach_map_fst {α β : Type _} (l : List α) (f : α → β) :
    (l.attach.map fun x => f x.1) = l.map f := by
  simp [List.attach, List.attachWith, List.map_pmap, List.pmap_eq_map]

/-- Translation of `Schema.get_all_properties` (models.py lines 105-112):
own `properties`, then `properties.update(subschema.get_all_properties())`
for each `all_of` member in declaration order. -/
def get_all_properties (s : Schema) : List (String × Schema) :=
  (s.all_of.attach.map (fun x => get_all_properties x.1)).foldl dictUpdate
    s.properties
termination_by sizeOf s
decreasing_by
  exact sizeOf_mem_all_of s x.1 x.2

theorem get_all_properties_eq (s : Schema) :
    get_all_properties s =
      (s.all_of.map get_all_properties).foldl dictUpdate s.properties := by
  rw [get_all_properties.eq_def, attach_map_fst]

/-- Translation of `Schema.get_all_properties_names` (models.py lines 114-116):
the key set of the flattened properties (a Python `set`; the model keeps the
key list, theorems use membership). -/
def get_all_properties_names (s : Schema) : List String :=
  (get_all_properties s).map Prod.fst

theorem mem_updateOne (d : List (String × Schema)) (k : String) (v : Schema)
    (kv : String × Schema) (h : kv ∈ updateOne d k v) :
    kv ∈ d ∨ kv = (k, v) := by
  unfold updateOne at h
  split at h
  · obtain ⟨p, hp, hpe⟩ := List.mem_map.mp h
    by_cases hpk : p.1 = k
    · right; rw [if_pos hpk] at hpe; exact hpe.symm
    · left; rw [if_neg hpk] at hpe; exact hpe ▸ hp
  · rcases List.mem_append.mp h with h1 | h1
    · exact Or.inl h1
    · right; simpa using h1

theorem mem_dictUpdate (d e : List (String × Schema)) (kv : String × Schema)
    (h : kv ∈ dictUpdate d e) : kv ∈ d ∨ kv ∈ e := by
  induction e generalizing d with
  | nil => exact Or.inl h
  | cons p rest ih =>
    have h2 : kv ∈ dictUpdate (updateOne d p.1 p.2) rest := h
    rcases ih (updateOne d p.1 p.2) h2 with h3 | h3
    · rcases mem_updateOne d p.1 p.2 kv h3 with h4 | h4
      · exact Or.inl h4
      · right
        rw [h4]
        exact List.mem_cons_self p rest
    · right; right; exact h3

theorem mem_foldl_dictUpdate (d : List (String × Schema))
    (es : List (List (String × Schema))) (kv : String × Schema)
    (h : kv ∈ es.foldl dictUpdate d) : kv ∈ d ∨ ∃ e ∈ es, kv ∈ e := by
  induction es generalizing d with
  | nil => exact Or.inl h
  | cons e rest ih =>
    rcases ih (dictUpdate d e) h with h1 | h1
    · rcases mem_dictUpdate d e kv h1 with h2 | h2
      · exact Or.inl h2
      · exact Or.inr ⟨e, by simp, h2⟩
    · obtain ⟨e1, he1, hkv⟩ := h1
      exact Or.inr ⟨e1, by simp [he1], hkv⟩

theorem mem_get_all_properties (s : Schema) (kv : String × Schema)
    (h : kv ∈ get_all_properties s) :
    kv ∈ s.properties ∨ ∃ sub ∈ s.all_of, kv ∈ get_all_properties sub := by
  rw [get_all_properties_eq] at h
  rcases mem_foldl_dictUpdate _ _ kv h with h1 | h1
  · exact Or.inl h1
  · obtain ⟨e, he, hkv⟩ := h1
    obtain ⟨sub, hsub, hse⟩ := List.mem_map.mp he
    exact Or.inr ⟨sub, hsub, hse ▸ hkv⟩

theorem sizeOf_mem_get_all_properties_aux (n : Nat) :
    ∀ s : Schema, sizeOf s ≤ n → ∀ kv ∈ get_all_properties s,
      sizeOf kv.2 < sizeOf s := by
  induction n with
  | zero =>
    intro s hs
    have := sizeOf_properties_lt s
    omega
  | succ n ih =>
    intro s hs kv hkv
    rcases mem_get_all_properties s kv hkv with h1 | h1
    · exact sizeOf_mem_properties s kv h1
    · obtain ⟨sub, hsub, hkv2⟩ := h1
      have hlt := sizeOf_mem_all_of s sub hsub
      have := ih sub (by omega) kv hkv2
      omega

theorem sizeOf_mem_get_all_properties (s : Schema) (kv : String × Schema)
    (h : kv ∈ get_all_properties s) : sizeOf kv.2 < sizeOf s :=
  sizeOf_mem_get_all_properties_aux (sizeOf s) s (Nat.le_refl _) kv h

theorem keys_map_replace (d : List (String × Schema)) (k : String) (v : Schema) :
    ((d.map (fun p => if p.1 = k then (k, v) else p)).map Prod.fst) =
      d.map Prod.fst := by
  induction d with
  | nil => rfl
  | cons p rest ih =>
    by_cases hpk : p.1 = k <;> simp [hpk, ih]

theorem nodupKeys_updateOne (d : List (String × Schema)) (k : String)
    (v : Schema) (h : (d.map Prod.fst).Nodup) :
    ((updateOne d k v).map Prod.fst).Nodup := by
  unfold updateOne
  split
  case isTrue hin => rw [keys_map_replace]; exact h
  case isFalse hout =>
    have hnot : k ∉ d.map Prod.fst := by
      intro hmem
      obtain ⟨p, hp, hpk⟩ := List.mem_map.mp hmem
      exact hout (List.any_eq_true.mpr ⟨p, hp, by simp [hpk]⟩)
    simp only [List.map_append, List.map_cons, List.map_nil]
    exact List.Nodup.append h (List.nodup_singleton k)
      (by simpa [List.disjoint_singleton] using hnot)

theorem nodupKeys_dictUpdate (d e : List (String × Schema))
    (h : (d.map Prod.fst).Nodup) :
    ((dictUpdate d e).map Prod.fst).Nodup := by
  induction e generalizing d with
  | nil => exact h
  | cons p rest ih => exact ih (updateOne d p.1 p.2) (nodupKeys_updateOne d p.1 p.2 h)

theorem nodupKeys_foldl_dictUpdate (d : List (String × Schema))
    (es : List (List (String × Schema))) (h : (d.map Prod.fst).Nodup) :
    ((es.foldl dictUpdate d).map Prod.fst).Nodup := by
  induction es generalizing d with
  | nil => exact h
  | cons e rest ih => exact ih (dictUpdate d e) (nodupKeys_dictUpdate d e h)

/-- Well-formedness of a schema tree as produced by `Schema.__init__`: the
`properties` mapping of every node reachable through `all_of` has no duplicate
keys (Python dicts cannot have duplicate keys). -/
def keysNodup (s : Schema) : Bool :=
  decide ((s.properties.map Prod.fst).Nodup) &&
    s.all_of.attach.all (fun x => keysNodup x.1)
termination_by sizeOf s
decreasing_by
  exact sizeOf_mem_all_of s x.1 x.2

theorem attach_all_eq {α : Type _} (l : List α) (f : α → Bool) :
    (l.attach.all fun x => f x.1) = l.all f := by
  rw [Bool.eq_iff_iff, List.all_eq_true, List.all_eq_true]
  constructor
  · intro h a ha
    exact h ⟨a, ha⟩ (List.mem_attach l ⟨a, ha⟩)
  · intro h x hx
    exact h x.1 x.2

theorem keysNodup_eq (s : Schema) :
    keysNodup s = (decide ((s.properties.map Prod.fst).Nodup) &&
      s.all_of.all keysNodup) := by
  rw [keysNodup.eq_def, attach_all_eq]

theorem keysNodup_properties (s : Schema) (h : keysNodup s = true) :
    (s.properties.map Prod.fst).Nodup := by
  rw [keysNodup_eq] at h
  exact of_decide_eq_true (Bool.and_elim_left h)

theorem keysNodup_mem_all_of (s sub : Schema) (h : keysNodup s = true)
    (hsub : sub ∈ s.all_of) : keysNodup sub = true := by
  rw [keysNodup_eq] at h
  exact List.all_eq_true.mp (Bool.and_elim_right h) sub hsub

theorem nodupKeys_get_all_properties (s : Schema) (h : keysNodup s = true) :
    ((get_all_properties s).map Prod.fst).Nodup := by
  rw [get_all_properties_eq]
  exact nodupKeys_foldl_dictUpdate _ _ (keysNodup_properties s h)

theorem not_mem_keys_lookup_none (l : List (String × Schema)) (q : String)
    (h : q ∉ l.map Prod.fst) : dictLookup l q = Option.none := by
  induction l with
  | nil => rfl
  | cons p rest ih =>
    simp only [List.map_cons, List.mem_cons] at h
    push_neg at h
    have hpq : ¬ (p.1 = q) := fun hh => h.1 hh.symm
    rw [dictLookup_cons, if_neg hpq]
    exact ih h.2

theorem dictLookup_reverse_of_nodup (l : List (String × Schema)) (q : String)
    (h : (l.map Prod.fst).Nodup) : dictLookup l.reverse q = dictLookup l q := by
  induction l with
  | nil => rfl
  | cons p rest ih =>
    simp only [List.map_cons, List.nodup_cons] at h
    have hrev : (p :: rest).reverse = rest.reverse ++ [p] := by simp
    rw [hrev, dictLookup_append, ih h.2]
    have hcons : dictLookup (p :: rest) q =
        if p.1 = q then some p.2 else dictLookup rest q := dictLookup_cons p rest q
    have hsingle : dictLookup [p] q =
        if p.1 = q then some p.2 else Option.none := dictLookup_cons p [] q
    rw [hcons]
    by_cases hpq : p.1 = q
    · have hq : q ∉ rest.map Prod.fst := hpq ▸ h.1
      rw [not_mem_keys_lookup_none rest q hq]
      simp [hsingle, hpq]
    · rw [if_neg hpq]
      cases hl : dictLookup rest q <;> simp [hl, hsingle, hpq]

theorem dictLookup_foldl_dictUpdate (d : List (String × Schema))
    (es : List (List (String × Schema))) (q : String)
    (he : ∀ e ∈ es, (e.map Prod.fst).Nodup) :
    dictLookup (es.foldl dictUpdate d) q =
      match es.reverse.findSome? (fun e => dictLookup e q) with
      | some v => some v
      | Option.none => dictLookup d q := by
  induction es generalizing d with
  | nil => rfl
  | cons e rest ih =>
    have he1 : (e.map Prod.fst).Nodup := he e (by simp)
    have he2 : ∀ x ∈ rest, (x.map Prod.fst).Nodup := fun x hx => he x (by simp [hx])
    show dictLookup (rest.foldl dictUpdate (dictUpdate d e)) q = _
    rw [ih (dictUpdate d e) he2, dictLookup_dictUpdate,
      dictLookup_reverse_of_nodup e q he1]
    have hrev : (e :: rest).reverse = rest.reverse ++ [e] := by simp
    rw [hrev, List.findSome?_append]
    cases h1 : rest.reverse.findSome? (fun x => dictLookup x q) with
    | some v => simp [Option.or]
    | none =>
      cases h2 : dictLookup e q with
      | some v => simp [Option.or, List.findSome?, h2]
      | none => simp [Option.or, List.findSome?, h2]

/-- C1 (amended): property flattening is right-biased, not left-biased.
`get_all_properties` starts from the node's own `properties` and applies
`dict.update` with each `all_of` member's recursively flattened properties in
declaration order, so on a name collision the entry of the last-encountered
`all_of` member wins, and inherited entries override the node's own entry;
a name resolves to the node's own entry only when no `all_of` member
contributes it.  Stated as a lookup characterization: the value for a name is
the first hit scanning the `all_of` members from last to first, with the own
`properties` entry as the fallback. -/
theorem all_properties_lookup_right_biased (s : Schema)
    (h : keysNodup s = true) (q : String) :
    dictLookup (get_all_properties s) q =
      match s.all_of.reverse.findSome?
          (fun sub => dictLookup (get_all_properties sub) q) with
      | some v => some v
      | Option.none => dictLookup s.properties q := by
  rw [get_all_properties_eq]
  rw [dictLookup_foldl_dictUpdate s.properties (s.all_of.map get_all_properties) q
    (by
      intro e he
      obtain ⟨sub, hsub, hse⟩ := List.mem_map.mp he
      exact hse ▸ nodupKeys_get_all_properties sub (keysNodup_mem_all_of s sub h hsub))]
  rw [← List.map_reverse, List.findSome?_map]
  rfl

/-- Schema with integer type, used as a distinguishable property value. -/
def exIntSchema : Schema := .mk { type := .integer }

/-- Schema with string type, used as a distinguishable property value. -/
def exStrSchema : Schema := .mk { type := .string }

/-- Inherited schema: declares property `x` mapped to the string schema. -/
def exInherited : Schema := .mk { properties := [("x", exStrSchema)] }

/-- Child schema: own property `x` mapped to the integer schema, and
`all_of := [exInherited]`. -/
def exChild : Schema :=
  .mk { properties := [("x", exIntSchema)], all_of := [exInherited] }

theorem exIntSchema_ne_exStrSchema : exIntSchema ≠ exStrSchema := by
  intro h
  have := congrArg Schema.type h
  simp [Schema.type, Schema.data, exIntSchema, exStrSchema] at this

theorem gap_exInherited : get_all_properties exInherited = [("x", exStrSchema)] := by
  rw [get_all_properties_eq]
  rfl

theorem gap_exChild : get_all_properties exChild = [("x", exStrSchema)] := by
  rw [get_all_properties_eq]
  show List.foldl dictUpdate exChild.properties
    [get_all_properties exInherited] = _
  rw [gap_exInherited]
  rfl

theorem keysNodup_exInherited : keysNodup exInherited = true := by
  rw [keysNodup_eq]
  rfl

theorem keysNodup_exChild : keysNodup exChild = true := by
  rw [keysNodup_eq]
  show (decide ((exChild.properties.map Prod.fst).Nodup) &&
    List.all [exInherited] keysNodup) = true
  rw [List.all_cons, keysNodup_exInherited]
  rfl

/-- C1 (counterexample): flattening is not left-biased.  `exChild` has its own
property `x` mapped to the integer schema, and inherits `x` mapped to the
string schema from its single `all_of` member; `get_all_properties` resolves
`x` to the inherited string schema, so the node's own entry does not win. -/
theorem all_properties_left_bias_refuted :
    exChild.properties = [("x", exIntSchema)] ∧
    exChild.all_of = [exInherited] ∧
    dictLookup (get_all_properties exInherited) "x" = some exStrSchema ∧
    dictLookup (get_all_properties exChild) "x" = some exStrSchema ∧
    exIntSchema ≠ exStrSchema := by
  refine ⟨rfl, rfl, ?_, ?_, exIntSchema_ne_exStrSchema⟩
  · rw [gap_exInherited]
    rfl
  · rw [gap_exChild]
    rfl

/-- C1 (witness): the right-biased lookup characterization applied to the
concrete two-node example. -/
theorem all_properties_lookup_right_biased_witness :
    keysNodup exChild = true ∧
    dictLookup (get_all_properties exChild) "x" = some exStrSchema := by
  refine ⟨keysNodup_exChild, ?_⟩
  have hx : dictLookup (get_all_properties exInherited) "x" = some exStrSchema := by
    rw [gap_exInherited]
    rfl
  rw [all_properties_lookup_right_biased exChild keysNodup_exChild "x"]
  have hall : exChild.all_of = [exInherited] := rfl
  rw [hall]
  simp [List.findSome?, hx]

mutual

/-- Translation of `Schema.get_all_required_properties_names` (models.py lines
135-142): a copy of own `required`, extended for each `all_of` member with the
member's `get_all_required_properties()` result — a Python dict, over which
`required += subschema_req` iterates, appending its keys.  The source wraps
the final list in `set(...)`; the model keeps the list and theorems use
membership. -/
def get_all_required_properties_names (s : Schema) : List String :=
  s.required ++
    (s.all_of.attach.map
      (fun x => (get_all_required_properties x.1).map Prod.fst)).flatten
termination_by sizeOf s * 2
decreasing_by
  have := sizeOf_mem_all_of s x.1 x.2
  omega

/-- Translation of `Schema.get_all_required_properties` /
`Schema._get_all_required_properties` (models.py lines 118-133, the
memoization cache dropped): the flattened properties restricted to names in
`get_all_required_properties_names`. -/
def get_all_required_properties (s : Schema) : List (String × Schema) :=
  (get_all_properties s).filter
    (fun p => (get_all_required_properties_names s).contains p.1)
termination_by sizeOf s * 2 + 1
decreasing_by
  omega

end

theorem get_all_required_properties_names_eq (s : Schema) :
    get_all_required_properties_names s =
      s.required ++
        (s.all_of.map
          (fun sub => (get_all_required_properties sub).map Prod.fst)).flatten := by
  rw [get_all_required_properties_names.eq_def,
    attach_map_fst s.all_of
      (fun sub => (get_all_required_properties sub).map Prod.fst)]

theorem get_all_required_properties_eq (s : Schema) :
    get_all_required_properties s =
      (get_all_properties s).filter
        (fun p => (get_all_required_properties_names s).contains p.1) := by
  rw [get_all_required_properties.eq_def]

/-- C4 (amended): `get_all_required_properties_names` is the union of the
node's own `required` list with, for each `all_of` member, the member's
recursively resolved required names RESTRICTED to names that occur among the
member's flattened properties (because the source iterates the member's
`get_all_required_properties()` dict, which is keyed by
`get_all_properties()` and filtered by the required-name set, rather than the
member's full required-name set). -/
theorem all_required_names_characterization (s : Schema) (x : String) :
    x ∈ get_all_required_properties_names s ↔
      x ∈ s.required ∨
        ∃ sub ∈ s.all_of,
          (∃ v, (x, v) ∈ get_all_properties sub) ∧
            x ∈ get_all_required_properties_names sub := by
  rw [get_all_required_properties_names_eq]
  simp only [List.mem_append, List.mem_flatten, List.mem_map]
  constructor
  · rintro (h | ⟨e, ⟨sub, hsub, rfl⟩, hx⟩)
    · exact Or.inl h
    · obtain ⟨p, hp, hpx⟩ := List.mem_map.mp hx
      rw [get_all_required_properties_eq] at hp
      have hfil := List.mem_filter.mp hp
      refine Or.inr ⟨sub, hsub, ⟨p.2, ?_⟩, ?_⟩
      · have : p = (x, p.2) := by
          cases p with
          | mk a b => simp at hpx; simp [hpx]
        exact this ▸ hfil.1
      · have hc := hfil.2
        rw [hpx] at hc
        exact List.contains_iff_exists_mem_beq.mp hc |>.elim
          (fun y hy => by
            obtain ⟨hy1, hy2⟩ := hy
            have : x = y := by simpa using hy2
            exact this ▸ hy1)
  · rintro (h | ⟨sub, hsub, ⟨v, hv⟩, hx⟩)
    · exact Or.inl h
    · refine Or.inr ⟨(get_all_required_properties sub).map Prod.fst,
        ⟨sub, hsub, rfl⟩, ?_⟩
      rw [get_all_required_properties_eq]
      refine List.mem_map.mpr ⟨(x, v), ?_, rfl⟩
      refine List.mem_filter.mpr ⟨hv, ?_⟩
      simp only []
      exact List.contains_iff_exists_mem_beq.mpr ⟨x, hx, by simp⟩

/-- Schema that requires name `x` but declares no properties. -/
def exReqMember : Schema := .mk { required := ["x"] }

/-- Schema whose single `all_of` member is `exReqMember` and whose own
`required` list is empty. -/
def exReqParent : Schema := .mk { all_of := [exReqMember] }

theorem names_exReqMember : get_all_required_properties_names exReqMember = ["x"] := by
  rw [get_all_required_properties_names_eq]
  rfl

theorem names_exReqParent : get_all_required_properties_names exReqParent = [] := by
  rw [get_all_required_properties_names_eq]
  show [] ++ (List.map (fun sub => (get_all_required_properties sub).map Prod.fst)
    [exReqMember]).flatten = []
  rw [List.map_cons, List.map_nil, get_all_required_properties_eq]
  rw [get_all_properties_eq]
  rfl

/-- C4 (counterexample): the required-name set is not the plain union.  The
member `exReqMember` requires `x` (its recursively resolved required-name set
contains `x`), `exReqParent` has `all_of = [exReqMember]` and no own
`required` entries, yet `x` is not among `exReqParent`'s resolved required
names, because the member declares no property named `x`. -/
theorem all_required_names_union_refuted :
    "x" ∈ get_all_required_properties_names exReqMember ∧
    exReqParent.all_of = [exReqMember] ∧
    exReqParent.required = [] ∧
    "x" ∉ get_all_required_properties_names exReqParent := by
  refine ⟨?_, rfl, rfl, ?_⟩
  · rw [names_exReqMember]
    simp
  · rw [names_exReqParent]
    simp

/-- Python exception kinds observable in the cast engine: `ValueError`,
`TypeError`, `AttributeError` and the repository's own
`CastError(value, type)`. -/
inductive PyErr where
  | valueError
  | typeError
  | attributeError
  | regexError
  | castError (value : PyVal) (type : SchemaType)

/-- Accumulate the value of a digit run; fails on a non-digit. -/
def digitsValAux (acc : Nat) : List Char → Option Nat
  | [] => some acc
  | c :: rest =>
    if c.isDigit then digitsValAux (acc * 10 + (c.toNat - 48)) rest
    else Option.none

/-- Value of a nonempty all-digit character run. -/
def digitsVal : List Char → Option Nat
  | [] => Option.none
  | cs => digitsValAux 0 cs

/-- Modelled from the spec: the integer-literal grammar accepted by Python's
builtin `int` on strings (optional sign, then digits); `int` is the cast
callable for integer schemas (spec §4.1 "integer → parse as integer"). -/
def strToInt (s : String) : Option Int :=
  match s.data with
  | '-' :: rest => (digitsVal rest).map (fun n => -(n : Int))
  | '+' :: rest => (digitsVal rest).map (fun n => (n : Int))
  | cs => (digitsVal cs).map (fun n => (n : Int))

/-- Digits with an optional fractional part, as an exact rational. -/
def parseUnsignedFloat (cs : List Char) : Option Rat :=
  match cs.splitOn '.' with
  | [a] => (digitsVal a).map (fun n => (n : Rat))
  | [a, b] =>
    if a.isEmpty && b.isEmpty then Option.none
    else
      match (if a.isEmpty then some 0 else digitsVal a),
            (if b.isEmpty then some 0 else digitsVal b) with
      | some ia, some ib =>
        some ((ia : Rat) + (ib : Rat) / ((10 : Rat) ^ b.length))
      | _, _ => Option.none
  | _ => Option.none

/-- Modelled from the spec: the decimal-literal grammar accepted by Python's
builtin `float` on strings; `float` is the cast callable for number schemas
(spec §4.1 "number → parse as floating point", modelled exactly over `Rat`). -/
def strToFloat (s : String) : Option Rat :=
  match s.data with
  | '-' :: rest => (parseUnsignedFloat rest).map Neg.neg
  | '+' :: rest => parseUnsignedFloat rest
  | cs => parseUnsignedFloat cs

/-- Modelled from the spec: Python's builtin `int` applied to an embedded
value — identity on ints, truncation toward zero on floats, 0/1 on bools,
string parsing with `ValueError` on failure, `TypeError` on other kinds. -/
def pyInt : PyVal → Except PyErr Int
  | .int n => .ok n
  | .float q => .ok (if 0 ≤ q then ⌊q⌋ else ⌈q⌉)
  | .bool b => .ok (if b then 1 else 0)
  | .str s =>
    match strToInt s with
    | some n => .ok n
    | Option.none => .error .valueError
  | _ => .error .typeError

/-- Modelled from the spec: Python's builtin `float` applied to an embedded
value. -/
def pyFloat : PyVal → Except PyErr Rat
  | .float q => .ok q
  | .int n => .ok (n : Rat)
  | .bool b => .ok (if b then 1 else 0)
  | .str s =>
    match strToFloat s with
    | some q => .ok q
    | Option.none => .error .valueError
  | _ => .error .typeError

/-- Python truthiness of an embedded value (`bool(x)`). -/
def truthy : PyVal → Bool
  | .none => false
  | .bool b => b
  | .int n => decide (n ≠ 0)
  | .float q => decide (q ≠ 0)
  | .str s => !s.isEmpty
  | .list xs => !xs.isEmpty
  | .dict xs => !xs.isEmpty

/-- ASCII lower-casing of one character. -/
def lowerChar (c : Char) : Char :=
  if 'A' ≤ c ∧ c ≤ 'Z' then Char.ofNat (c.toNat + 32) else c

/-- ASCII lower-casing of a string. -/
def lowerStr (s : String) : String := String.mk (s.data.map lowerChar)

/-- Modelled from the spec: `openapi_core.schema.schemas.util.forcebool` (not
among the given sources).  Spec §4.1: boolean casting uses "a permissive
boolean-string grammar (case-insensitive \"true\"/\"false\", \"1\"/\"0\",
etc.) — fails otherwise"; strings go through `distutils.util.strtobool`-style
word lists, non-strings through Python truthiness. -/
def forcebool : PyVal → Except PyErr PyVal
  | .str s =>
    if ["y", "yes", "t", "true", "on", "1"].contains (lowerStr s) then
      .ok (.bool true)
    else if ["n", "no", "f", "false", "off", "0"].contains (lowerStr s) then
      .ok (.bool false)
    else .error .valueError
  | v => .ok (.bool (truthy v))

mutual

/-- Translation of `Schema.cast` (models.py lines 152-163): `None` passes
through unchanged; otherwise the callable `get_cast_mapping()[self.type]` is
applied to the value and a `ValueError` raised by it is converted to
`CastError(value, self.type)` (other exceptions propagate unchanged). -/
def Schema.cast (s : Schema) (v : PyVal) : Except PyErr PyVal :=
  if v.isNone then .ok v
  else
    match cast_mapping_apply s s.type v with
    | .error .valueError => .error (.castError v s.type)
    | r => r
termination_by (sizeOf s, 2)

/-- Translation of `Schema.get_cast_mapping` applied at a type (models.py
lines 39-43 and 144-150): `TYPE_CAST_CALLABLE_GETTER` maps integer ↦ `int`,
number ↦ `float`, boolean ↦ `forcebool`; the mapping is updated with
array ↦ `self._cast_collection`, and the surrounding `defaultdict` yields the
identity for every other type. -/
def cast_mapping_apply (s : Schema) (t : SchemaType) (v : PyVal) :
    Except PyErr PyVal :=
  match t with
  | .integer => (pyInt v).map PyVal.int
  | .number => (pyFloat v).map PyVal.float
  | .boolean => forcebool v
  | .array => _cast_collection s v
  | _ => .ok v
termination_by (sizeOf s, 1)

/-- Translation of `Schema._cast_collection` (models.py lines 165-166):
`list(map(self.items.cast, value))`.  Accessing `.cast` on an absent `items`
raises `AttributeError`; mapping over a non-list raises `TypeError`. -/
def _cast_collection (s : Schema) (v : PyVal) : Except PyErr PyVal :=
  match hitems : s.items with
  | Option.none => .error .attributeError
  | some it =>
    match v with
    | .list xs => (castList it xs).map PyVal.list
    | _ => .error .typeError
termination_by (sizeOf s, 0)
decreasing_by
  have := sizeOf_items_lt s it hitems
  exact Prod.Lex.left _ _ this

/-- Elementwise cast of a list against the item schema, stopping at the first
failing element (`list(map(...))` evaluation order). -/
def castList (it : Schema) (xs : List PyVal) : Except PyErr (List PyVal) :=
  match xs with
  | [] => .ok []
  | x :: rest => do
    let y ← Schema.cast it x
    let ys ← castList it rest
    pure (y :: ys)
termination_by (sizeOf it, 3 + sizeOf xs)
decreasing_by
  · exact Prod.Lex.right _ (by omega)
  · exact Prod.Lex.right _ (by
      simp only [List.cons.sizeOf_spec]
      omega)

end

theorem PyVal.isNone_iff (v : PyVal) : v.isNone = true ↔ v = PyVal.none := by
  cases v <;> simp [PyVal.isNone]

theorem cast_eq_branch (s : Schema) (v : PyVal) (hv : ¬ v.isNone = true) :
    Schema.cast s v =
      match cast_mapping_apply s s.type v with
      | .error .valueError => .error (.castError v s.type)
      | r => r := by
  rw [Schema.cast.eq_def, if_neg hv]

theorem cast_ne_valueError (s : Schema) (v : PyVal) :
    Schema.cast s v ≠ .error .valueError := by
  rw [Schema.cast.eq_def]
  by_cases hv : v.isNone = true
  · simp [hv]
  · simp only [hv, if_false]
    cases hx : cast_mapping_apply s s.type v with
    | ok r => simp
    | error e => cases e <;> simp

theorem _cast_collection_none (s : Schema) (hits : s.items = Option.none)
    (v : PyVal) : _cast_collection s v = .error .attributeError := by
  rw [_cast_collection.eq_def]
  split
  · rfl
  · rename_i it2 heq
    rw [hits] at heq
    simp at heq

theorem _cast_collection_some (s it : Schema) (hits : s.items = some it)
    (v : PyVal) :
    _cast_collection s v =
      match v with
      | .list xs => (castList it xs).map PyVal.list
      | _ => .error .typeError := by
  rw [_cast_collection.eq_def]
  split
  · rename_i heq
    rw [hits] at heq
    simp at heq
  · rename_i it2 heq
    rw [hits] at heq
    have h2 : it = it2 := by injection heq
    subst h2
    rfl

theorem castList_nil (it : Schema) : castList it [] = .ok [] := by
  rw [castList.eq_def]

theorem castList_cons (it : Schema) (x : PyVal) (rest : List PyVal) :
    castList it (x :: rest) =
      Except.bind (Schema.cast it x) (fun y =>
        Except.bind (castList it rest) (fun ys => Except.ok (y :: ys))) := by
  rw [castList.eq_def]
  rfl

theorem castList_ne_valueError (it : Schema) (xs : List PyVal) :
    castList it xs ≠ .error .valueError := by
  induction xs with
  | nil => rw [castList_nil]; simp
  | cons x rest ih =>
    rw [castList_cons]
    cases hx : Schema.cast it x with
    | error e =>
      have hne := cast_ne_valueError it x
      rw [hx] at hne
      simpa [Except.bind] using fun hcon => hne (by rw [hcon])
    | ok y =>
      cases hrest : castList it rest with
      | error e =>
        rw [hrest] at ih
        simpa [Except.bind] using fun hcon => ih (by rw [hcon])
      | ok ys => simp [Except.bind]

/-- Whether a schema type is one for which the cast mapping falls back to the
identity callable (every type other than integer, number, boolean, array). -/
def nonPrimType : SchemaType → Bool
  | .any => true
  | .string => true
  | .object => true
  | _ => false

/-- Whether a value already matches the schema's primitive type (the
hypothesis of the cast-idempotence property, spec §8): integer ↦ int value,
number ↦ float value, boolean ↦ bool value, array ↦ list whose elements
recursively match the `items` schema; for the remaining types (string,
object, any) the cast callable is the identity, so every value matches. -/
def matchesPrim (s : Schema) (v : PyVal) : Bool :=
  match v with
  | .none => nonPrimType s.type
  | .str _ => nonPrimType s.type
  | .dict _ => nonPrimType s.type
  | .int _ => decide (s.type = .integer) || nonPrimType s.type
  | .float _ => decide (s.type = .number) || nonPrimType s.type
  | .bool _ => decide (s.type = .boolean) || nonPrimType s.type
  | .list xs =>
    (decide (s.type = .array) &&
      (match s.items with
        | some it => xs.attach.all (fun x => matchesPrim it x.1)
        | Option.none => false)) || nonPrimType s.type
termination_by sizeOf v
decreasing_by
  have h1 := List.sizeOf_lt_of_mem x.2
  simp only [PyVal.list.sizeOf_spec]
  omega

theorem castList_id (it : Schema) (xs : List PyVal)
    (h : ∀ x ∈ xs, Schema.cast it x = .ok x) : castList it xs = .ok xs := by
  induction xs with
  | nil => exact castList_nil it
  | cons x rest ih =>
    rw [castList_cons, h x (List.mem_cons_self x rest),
      ih (fun y hy => h y (List.mem_cons_of_mem x hy))]
    rfl

theorem cast_id_aux (n : Nat) : ∀ v : PyVal, sizeOf v ≤ n →
    ∀ s, matchesPrim s v = true → Schema.cast s v = .ok v := by
  induction n with
  | zero =>
    intro v hv
    cases v <;> simp at hv
  | succ n ih =>
    intro v hv s hm
    cases ht : s.type
    case integer =>
      cases v
      case int m =>
        rw [cast_eq_branch s (.int m) (by simp [PyVal.isNone]), ht]
        simp [cast_mapping_apply, pyInt, Except.map]
      all_goals simp [matchesPrim, ht, nonPrimType] at hm
    case number =>
      cases v
      case float q =>
        rw [cast_eq_branch s (.float q) (by simp [PyVal.isNone]), ht]
        simp [cast_mapping_apply, pyFloat, Except.map]
      all_goals simp [matchesPrim, ht, nonPrimType] at hm
    case boolean =>
      cases v
      case bool b =>
        rw [cast_eq_branch s (.bool b) (by simp [PyVal.isNone]), ht]
        simp [cast_mapping_apply, forcebool, truthy]
      all_goals simp [matchesPrim, ht, nonPrimType] at hm
    case array =>
      cases v
      case list xs =>
        cases hits : s.items with
        | none => simp [matchesPrim, ht, nonPrimType, hits] at hm
        | some it =>
          simp only [matchesPrim, ht, nonPrimType, hits, attach_all_eq] at hm
          have hall : ∀ x ∈ xs, matchesPrim it x = true := by
            have hm2 : xs.all (fun x => matchesPrim it x) = true := by
              revert hm
              cases xs.all (fun x => matchesPrim it x) <;> simp
            exact List.all_eq_true.mp hm2
          have hsz : ∀ x ∈ xs, sizeOf x ≤ n := by
            intro x hx
            have := List.sizeOf_lt_of_mem hx
            simp only [PyVal.list.sizeOf_spec] at hv
            omega
          have hcl : castList it xs = .ok xs :=
            castList_id it xs (fun x hx => ih x (hsz x hx) it (hall x hx))
          rw [cast_eq_branch s (.list xs) (by simp [PyVal.isNone]), ht]
          have hcc := _cast_collection_some s it hits (.list xs)
          simp [cast_mapping_apply, hcc, hcl, Except.map]
      all_goals simp [matchesPrim, ht, nonPrimType] at hm
    case any =>
      by_cases hnone : v.isNone = true
      · have hveq := (PyVal.isNone_iff v).mp hnone
        subst hveq
        rw [Schema.cast.eq_def]
        simp [PyVal.isNone]
      · rw [cast_eq_branch s v hnone, ht]
        simp [cast_mapping_apply]
    case string =>
      by_cases hnone : v.isNone = true
      · have hveq := (PyVal.isNone_iff v).mp hnone
        subst hveq
        rw [Schema.cast.eq_def]
        simp [PyVal.isNone]
      · rw [cast_eq_branch s v hnone, ht]
        simp [cast_mapping_apply]
    case object =>
      by_cases hnone : v.isNone = true
      · have hveq := (PyVal.isNone_iff v).mp hnone
        subst hveq
        rw [Schema.cast.eq_def]
        simp [PyVal.isNone]
      · rw [cast_eq_branch s v hnone, ht]
        simp [cast_mapping_apply]

theorem cast_id (s : Schema) (v : PyVal) (h : matchesPrim s v = true) :
    Schema.cast s v = .ok v :=
  cast_id_aux (sizeOf v) v (Nat.le_refl _) s h

/-- C5: the cast contract.  A null-equivalent value passes through unchanged
for every schema; dispatch is by `schema.type` — integer parses via `int`,
number via `float`, boolean via the permissive case-insensitive `forcebool`
grammar, array casts each element recursively via the item schema's own cast,
and every other type is the identity; a `ValueError`-style parse failure
surfaces as `CastError(value, type)`, a local per-value error value. -/
theorem cast_contract (s : Schema) (v : PyVal) :
    (Schema.cast s PyVal.none = .ok PyVal.none) ∧
    (s.type = .integer → ¬ v.isNone = true →
      (∀ n, pyInt v = .ok n → Schema.cast s v = .ok (.int n)) ∧
      (pyInt v = .error .valueError →
        Schema.cast s v = .error (.castError v .integer))) ∧
    (s.type = .number → ¬ v.isNone = true →
      (∀ q, pyFloat v = .ok q → Schema.cast s v = .ok (.float q)) ∧
      (pyFloat v = .error .valueError →
        Schema.cast s v = .error (.castError v .number))) ∧
    (s.type = .boolean → ¬ v.isNone = true →
      (∀ b, forcebool v = .ok b → Schema.cast s v = .ok b) ∧
      (forcebool v = .error .valueError →
        Schema.cast s v = .error (.castError v .boolean))) ∧
    (s.type = .array → ∀ it xs, s.items = some it → v = .list xs →
      Schema.cast s v = (castList it xs).map PyVal.list) ∧
    ((s.type = .string ∨ s.type = .object ∨ s.type = .any) →
      Schema.cast s v = .ok v) := by
  refine ⟨?_, ?_, ?_, ?_, ?_, ?_⟩
  · rw [Schema.cast.eq_def]
    simp [PyVal.isNone]
  · intro ht hv
    refine ⟨fun n hn => ?_, fun he => ?_⟩
    · rw [cast_eq_branch s v hv, ht]
      simp [cast_mapping_apply, hn, Except.map]
    · rw [cast_eq_branch s v hv, ht]
      simp [cast_mapping_apply, he, Except.map]
  · intro ht hv
    refine ⟨fun q hq => ?_, fun he => ?_⟩
    · rw [cast_eq_branch s v hv, ht]
      simp [cast_mapping_apply, hq, Except.map]
    · rw [cast_eq_branch s v hv, ht]
      simp [cast_mapping_apply, he, Except.map]
  · intro ht hv
    refine ⟨fun b hb => ?_, fun he => ?_⟩
    · rw [cast_eq_branch s v hv, ht]
      simp [cast_mapping_apply, hb]
    · rw [cast_eq_branch s v hv, ht]
      simp [cast_mapping_apply, he]
  · intro ht it xs hits hveq
    subst hveq
    rw [cast_eq_branch s (.list xs) (by simp [PyVal.isNone]), ht]
    have hcc := _cast_collection_some s it hits (.list xs)
    simp only [cast_mapping_apply]
    rw [hcc]
    cases hcl : castList it xs with
    | ok ys => simp [Except.map, hcl]
    | error e =>
      have hne := castList_ne_valueError it xs
      rw [hcl] at hne
      cases e
      case valueError => exact absurd rfl hne
      all_goals simp [Except.map, hcl]
  · intro ht
    by_cases hv : v.isNone = true
    · have hveq := (PyVal.isNone_iff v).mp hv
      subst hveq
      rw [Schema.cast.eq_def]
      simp [PyVal.isNone]
    · rw [cast_eq_branch s v hv]
      rcases ht with h | h | h <;> rw [h] <;> simp [cast_mapping_apply]

/-- Schema with number type. -/
def exNumSchema : Schema := .mk { type := .number }

/-- Schema with boolean type. -/
def exBoolSchema : Schema := .mk { type := .boolean }

/-- Array schema whose items are integers. -/
def exArrIntSchema : Schema := .mk { type := .array, items := some exIntSchema }

/-- C5 (witness): the cast contract applied at concrete inputs — string
parsing to an integer, a parse failure surfacing as `CastError`, permissive
boolean casting, elementwise array casting, and identity on a string-typed
schema. -/
theorem cast_contract_witness :
    Schema.cast exIntSchema (.str "7") = .ok (.int 7) ∧
    Schema.cast exIntSchema (.str "xy") =
      .error (.castError (.str "xy") .integer) ∧
    Schema.cast exBoolSchema (.str "TRUE") = .ok (.bool true) ∧
    Schema.cast exArrIntSchema (.list [.str "3"]) =
      (castList exIntSchema [.str "3"]).map PyVal.list ∧
    Schema.cast exStrSchema (.int 5) = .ok (.int 5) := by
  refine ⟨?_, ?_, ?_, ?_, ?_⟩
  · exact ((cast_contract exIntSchema (.str "7")).2.1 rfl
      (by simp [PyVal.isNone])).1 7 rfl
  · exact ((cast_contract exIntSchema (.str "xy")).2.1 rfl
      (by simp [PyVal.isNone])).2 rfl
  · exact ((cast_contract exBoolSchema (.str "TRUE")).2.2.2.1 rfl
      (by simp [PyVal.isNone])).1 (.bool true) rfl
  · exact (cast_contract exArrIntSchema (.list [.str "3"])).2.2.2.2.1 rfl
      exIntSchema [.str "3"] rfl rfl
  · exact (cast_contract exStrSchema (.int 5)).2.2.2.2.2 (Or.inl rfl)

/-- C6: cast is idempotent on any value that already matches the schema's
primitive type — casting such a value succeeds, and casting the result again
yields the same outcome, `cast(schema, cast(schema, v)) == cast(schema, v)`. -/
theorem cast_idempotent (s : Schema) (v : PyVal)
    (h : matchesPrim s v = true) :
    ∃ w, Schema.cast s v = .ok w ∧ Schema.cast s w = Schema.cast s v :=
  ⟨v, cast_id s v h, rfl⟩

/-- C6 (witness): idempotence at a concrete integer-array value. -/
theorem cast_idempotent_witness :
    matchesPrim exArrIntSchema (.list [.int 1, .int 2]) = true ∧
    ∃ w, Schema.cast exArrIntSchema (.list [.int 1, .int 2]) = .ok w ∧
      Schema.cast exArrIntSchema w =
        Schema.cast exArrIntSchema (.list [.int 1, .int 2]) := by
  have hm : matchesPrim exArrIntSchema (.list [.int 1, .int 2]) = true := by
    simp [matchesPrim, nonPrimType, attach_all_eq, exArrIntSchema, exIntSchema,
      Schema.type, Schema.items, Schema.data]
  exact ⟨hm, cast_idempotent exArrIntSchema _ hm⟩

/-- Modelled from the spec: the lookup performed by `SchemaType(schema_type)`
(the enums module is not among the given sources).  The string names follow
spec §3's list of schema kinds, `None` resolves to the wildcard any-kind, and
an unknown name raises `ValueError` as Python enums do. -/
def schemaTypeOf : Option String → Except PyErr SchemaType
  | Option.none => .ok .any
  | some "integer" => .ok .integer
  | some "number" => .ok .number
  | some "string" => .ok .string
  | some "boolean" => .ok .boolean
  | some "array" => .ok .array
  | some "object" => .ok .object
  | some _ => .error .valueError

/-- The normalization `int(x) if x is not None else None` applied by
`Schema.__init__` to every numeric constraint argument. -/
def toIntField (x : Option PyVal) : Except PyErr (Option PyVal) :=
  match x with
  | Option.none => .ok Option.none
  | some v => (pyInt v).map (fun n => some (.int n))

/-- The pattern normalization `pattern and re.compile(pattern) or None` of
`Schema.__init__`: an absent or empty (falsy) pattern is stored as `None`
without compiling; otherwise `re.compile` runs and its failure (modelled by
the `compile` parameter returning `none`) raises. -/
def compilePattern (compile : String → Option CompiledPattern)
    (pattern : Option String) : Except PyErr (Option CompiledPattern) :=
  match pattern with
  | Option.none => .ok Option.none
  | some p =>
    if p = "" then .ok Option.none
    else
      match compile p with
      | some c => .ok (some c)
      | Option.none => .error .regexError

/-- Python `dict(pairs)` for extension mappings: later duplicates win, first
position kept. -/
def dictOfExt (l : List (String × PyVal)) : List (String × PyVal) :=
  l.foldl (fun acc p =>
    if acc.any (fun q => q.1 = p.1) then
      acc.map (fun q => if q.1 = p.1 then (p.1, p.2) else q)
    else acc ++ [p]) []

/-- Translation of `Schema.__init__` (models.py lines 48-92), parametric in
the behavior of `re.compile` (the `compile` argument, modelled from the spec):
resolves the type tag, normalizes container arguments with
`x and f(x) or default`, converts every numeric constraint through `int(...)`
in source order, and compiles the pattern; any conversion failure raises. -/
def initSchema (compile : String → Option CompiledPattern)
    (schema_type : Option String) (properties : Option (List (String × Schema)))
    (items : Option Schema) (schema_format : Option String)
    (required : Option (List String)) (default : Option PyVal)
    (nullable : Bool) (enum : Option (List PyVal)) (deprecated : Bool)
    (all_of : Option (List Schema)) (one_of : Option (List Schema))
    (additional_properties : Sum Bool Schema)
    (min_items : Option PyVal) (max_items : Option PyVal)
    (min_length : Option PyVal) (max_length : Option PyVal)
    (pattern : Option String) (unique_items : Bool)
    (minimum : Option PyVal) (maximum : Option PyVal)
    (multiple_of : Option PyVal)
    (exclusive_minimum : Bool) (exclusive_maximum : Bool)
    (min_properties : Option PyVal) (max_properties : Option PyVal)
    (extensions : Option (List (String × PyVal))) :
    Except PyErr Schema := do
  let t ← schemaTypeOf schema_type
  let mni ← toIntField min_items
  let mxi ← toIntField max_items
  let mnl ← toIntField min_length
  let mxl ← toIntField max_length
  let pat ← compilePattern compile pattern
  let mn ← toIntField minimum
  let mx ← toIntField maximum
  let mo ← toIntField multiple_of
  let mnp ← toIntField min_properties
  let mxp ← toIntField max_properties
  .ok (.mk {
    type := t
    properties := dictUpdate [] (properties.getD [])
    items := items
    format := schema_format
    required := required.getD []
    default := default
    nullable := nullable
    enum := enum
    deprecated := deprecated
    all_of := all_of.getD []
    one_of := one_of.getD []
    additional_properties := additional_properties
    min_items := mni
    max_items := mxi
    min_length := mnl
    max_length := mxl
    pattern := pat
    unique_items := unique_items
    minimum := mn
    maximum := mx
    multiple_of := mo
    exclusive_minimum := exclusive_minimum
    exclusive_maximum := exclusive_maximum
    min_properties := mnp
    max_properties := mxp
    extensions := dictOfExt (extensions.getD []) })

/-- An optional field holds an embedded integer (never a raw string). -/
def isIntOpt (o : Option PyVal) : Prop :=
  o = Option.none ∨ ∃ n : Int, o = some (.int n)

theorem bind_ok_inv {α β : Type _} (x : Except PyErr α)
    (f : α → Except PyErr β) (b : β) (h : x >>= f = .ok b) :
    ∃ a, x = .ok a ∧ f a = .ok b := by
  cases x with
  | ok a => exact ⟨a, rfl, h⟩
  | error e => exact absurd h (by simp [Bind.bind, Except.bind])

theorem toIntField_shape (x : Option PyVal) (y : Option PyVal)
    (h : toIntField x = .ok y) : isIntOpt y := by
  cases x with
  | none =>
    simp [toIntField] at h
    exact Or.inl h.symm
  | some v =>
    simp [toIntField] at h
    cases hx : pyInt v with
    | ok n =>
      rw [hx] at h
      simp [Except.map] at h
      exact Or.inr ⟨n, h.symm⟩
    | error e =>
      rw [hx] at h
      simp [Except.map] at h

theorem compilePattern_shape (compile : String → Option CompiledPattern)
    (pattern : Option String) (pat : Option CompiledPattern)
    (h : compilePattern compile pattern = .ok pat) :
    (pat = Option.none ∧ (pattern = Option.none ∨ pattern = some "")) ∨
      (∃ p c, pattern = some p ∧ p ≠ "" ∧ compile p = some c ∧
        pat = some c) := by
  cases pattern with
  | none =>
    simp [compilePattern] at h
    exact Or.inl ⟨h.symm, Or.inl rfl⟩
  | some p =>
    simp only [compilePattern] at h
    by_cases hp : p = ""
    · rw [if_pos hp] at h
      injection h with h2
      subst hp
      exact Or.inl ⟨h2.symm, Or.inr rfl⟩
    · rw [if_neg hp] at h
      cases hc : compile p with
      | some c =>
        rw [hc] at h
        injection h with h2
        exact Or.inr ⟨p, c, rfl, hp, hc, h2.symm⟩
      | none =>
        rw [hc] at h
        exact absurd h (by simp)

/-- C7: construction establishes and fails fast on the field invariants.  When
`initSchema` succeeds, the stored `pattern` is either `None` (for an absent or
falsy pattern argument) or exactly the compiled form produced by the regex
compiler, and construction fails when the compiler rejects a nonempty pattern;
every numeric constraint field (`minimum`, `maximum`, `multiple_of`,
`min_length`, `max_length`, `min_items`, `max_items`, `min_properties`,
`max_properties`) holds an embedded integer produced by `int(...)`, never a
raw string. -/
theorem init_invariants (compile : String → Option CompiledPattern)
    (schema_type : Option String) (properties : Option (List (String × Schema)))
    (items : Option Schema) (schema_format : Option String)
    (required : Option (List String)) (default : Option PyVal)
    (nullable : Bool) (enum : Option (List PyVal)) (deprecated : Bool)
    (all_of : Option (List Schema)) (one_of : Option (List Schema))
    (additional_properties : Sum Bool Schema)
    (min_items : Option PyVal) (max_items : Option PyVal)
    (min_length : Option PyVal) (max_length : Option PyVal)
    (pattern : Option String) (unique_items : Bool)
    (minimum : Option PyVal) (maximum : Option PyVal)
    (multiple_of : Option PyVal)
    (exclusive_minimum : Bool) (exclusive_maximum : Bool)
    (min_properties : Option PyVal) (max_properties : Option PyVal)
    (extensions : Option (List (String × PyVal))) :
    (∀ s, initSchema compile schema_type properties items schema_format
        required default nullable enum deprecated all_of one_of
        additional_properties min_items max_items min_length max_length
        pattern unique_items minimum maximum multiple_of exclusive_minimum
        exclusive_maximum min_properties max_properties extensions = .ok s →
      ((s.pattern = Option.none ∧
          (pattern = Option.none ∨ pattern = some "")) ∨
        (∃ p c, pattern = some p ∧ p ≠ "" ∧ compile p = some c ∧
          s.pattern = some c)) ∧
      isIntOpt s.min_items ∧ isIntOpt s.max_items ∧ isIntOpt s.min_length ∧
      isIntOpt s.max_length ∧ isIntOpt s.minimum ∧ isIntOpt s.maximum ∧
      isIntOpt s.multiple_of ∧ isIntOpt s.min_properties ∧
      isIntOpt s.max_properties) ∧
    (∀ p, pattern = some p → p ≠ "" → compile p = Option.none →
      ∃ e, initSchema compile schema_type properties items schema_format
        required default nullable enum deprecated all_of one_of
        additional_properties min_items max_items min_length max_length
        pattern unique_items minimum maximum multiple_of exclusive_minimum
        exclusive_maximum min_properties max_properties extensions =
        .error e) := by
  constructor
  · intro s hs
    unfold initSchema at hs
    obtain ⟨t, h1, hs⟩ := bind_ok_inv _ _ _ hs
    obtain ⟨mni, h2, hs⟩ := bind_ok_inv _ _ _ hs
    obtain ⟨mxi, h3, hs⟩ := bind_ok_inv _ _ _ hs
    obtain ⟨mnl, h4, hs⟩ := bind_ok_inv _ _ _ hs
    obtain ⟨mxl, h5, hs⟩ := bind_ok_inv _ _ _ hs
    obtain ⟨pat, h6, hs⟩ := bind_ok_inv _ _ _ hs
    obtain ⟨mn, h7, hs⟩ := bind_ok_inv _ _ _ hs
    obtain ⟨mx, h8, hs⟩ := bind_ok_inv _ _ _ hs
    obtain ⟨mo, h9, hs⟩ := bind_ok_inv _ _ _ hs
    obtain ⟨mnp, h10, hs⟩ := bind_ok_inv _ _ _ hs
    obtain ⟨mxp, h11, hs⟩ := bind_ok_inv _ _ _ hs
    injection hs with hbig
    subst hbig
    refine ⟨?_, ?_, ?_, ?_, ?_, ?_, ?_, ?_, ?_, ?_⟩
    · exact compilePattern_shape compile pattern pat h6
    · exact toIntField_shape _ _ h2
    · exact toIntField_shape _ _ h3
    · exact toIntField_shape _ _ h4
    · exact toIntField_shape _ _ h5
    · exact toIntField_shape _ _ h7
    · exact toIntField_shape _ _ h8
    · exact toIntField_shape _ _ h9
    · exact toIntField_shape _ _ h10
    · exact toIntField_shape _ _ h11
  · intro p hp hne hcompile
    have hpat : compilePattern compile pattern = .error .regexError := by
      rw [hp]
      simp [compilePattern, hne, hcompile]
    cases h1 : schemaTypeOf schema_type with
    | error e => exact ⟨e, by simp [initSchema, h1, Bind.bind, Except.bind]⟩
    | ok t =>
      cases h2 : toIntField min_items with
      | error e =>
        exact ⟨e, by simp [initSchema, h1, h2, Bind.bind, Except.bind]⟩
      | ok a2 =>
        cases h3 : toIntField max_items with
        | error e =>
          exact ⟨e, by simp [initSchema, h1, h2, h3, Bind.bind, Except.bind]⟩
        | ok a3 =>
          cases h4 : toIntField min_length with
          | error e =>
            exact ⟨e, by
              simp [initSchema, h1, h2, h3, h4, Bind.bind, Except.bind]⟩
          | ok a4 =>
            cases h5 : toIntField max_length with
            | error e =>
              exact ⟨e, by
                simp [initSchema, h1, h2, h3, h4, h5, Bind.bind, Except.bind]⟩
            | ok a5 =>
              exact ⟨.regexError, by
                simp [initSchema, h1, h2, h3, h4, h5, hpat, Bind.bind,
                  Except.bind]⟩

/-- Regex compiler used in the construction witness: rejects the single
pattern `"("`, compiles everything else. -/
def exCompile : String → Option CompiledPattern := fun p =>
  if p = "(" then Option.none else some ⟨p⟩

/-- C7 (witness): construction fails fast on the rejected pattern `"("`, and
a successful construction with pattern `"ab"` and the raw string minimum
`"5"` stores a compiled pattern and an integer minimum. -/
theorem init_invariants_witness :
    (∃ e, initSchema exCompile Option.none Option.none Option.none
        Option.none Option.none Option.none false Option.none false
        Option.none Option.none (Sum.inl true) Option.none Option.none
        Option.none Option.none (some "(") false Option.none Option.none
        Option.none false false Option.none Option.none Option.none =
        .error e) ∧
    (∃ s, initSchema exCompile (some "object") Option.none Option.none
        Option.none Option.none Option.none false Option.none false
        Option.none Option.none (Sum.inl true) Option.none Option.none
        Option.none Option.none (some "ab") false (some (.str "5"))
        Option.none Option.none false false Option.none Option.none
        Option.none = .ok s ∧
      isIntOpt s.minimum ∧ ∃ c, s.pattern = some c) := by
  constructor
  · exact (init_invariants exCompile Option.none Option.none Option.none
      Option.none Option.none Option.none false Option.none false
      Option.none Option.none (Sum.inl true) Option.none Option.none
      Option.none Option.none (some "(") false Option.none Option.none
      Option.none false false Option.none Option.none Option.none).2
      "(" rfl (by decide) rfl
  · obtain ⟨sG, hG⟩ : ∃ sG, initSchema exCompile (some "object") Option.none
        Option.none Option.none Option.none Option.none false Option.none
        false Option.none Option.none (Sum.inl true) Option.none Option.none
        Option.none Option.none (some "ab") false (some (.str "5"))
        Option.none Option.none false false Option.none Option.none
        Option.none = .ok sG := ⟨_, rfl⟩
    have h := (init_invariants exCompile (some "object") Option.none
      Option.none Option.none Option.none Option.none false Option.none
      false Option.none Option.none (Sum.inl true) Option.none Option.none
      Option.none Option.none (some "ab") false (some (.str "5"))
      Option.none Option.none false false Option.none Option.none
      Option.none).1 sG hG
    refine ⟨sG, hG, h.2.2.2.2.2.1, ?_⟩
    rcases h.1 with ⟨hnone, hcase⟩ | ⟨p, c, hp, hne2, hcp, hsp⟩
    · rcases hcase with hh | hh <;> simp at hh
    · exact ⟨c, hsp⟩

/-- Unmarshalling failure kinds: the `UnmarshalError` family (including
`UnmarshalValueError` and `UnmarshallerError`) which `_unmarshal_any` catches,
and a plain `ValueError`, which only the type-precedence loop also catches. -/
inductive UErr where
  | unmarshalError
  | valueError
deriving DecidableEq

/-- The observable `log.warning` events of `_unmarshal_any` (models.py lines
226, 231, 242). -/
inductive Warning where
  | multipleOneOf
  | oneOfNotFound
  | failedAnyType
deriving DecidableEq

/-- A caller-supplied format entry: an unmarshal function that may fail
(failure surfaces as an unmarshal error per spec §4.4). -/
def FmtFun : Type := PyVal → Option PyVal

/-- Caller-supplied custom formatters, a name-keyed mapping (spec §4.2). -/
def CustomFormatters : Type := List (String × FmtFun)

/-- First matching custom format entry for a format name. -/
def fmtLookup (cf : CustomFormatters) (fname : String) : Option FmtFun :=
  (cf.find? (fun p => p.1 = fname)).map (fun p => p.2)

/-- Value lookup in an embedded Python dict. -/
def pvLookup (kvs : List (String × PyVal)) (k : String) : Option PyVal :=
  (kvs.find? (fun p => p.1 = k)).map (fun p => p.2)

/-- Modelled from the spec: the bare primitive conversion used when no format
entry applies (spec §4.4): under `strict=true` the input must already be the
exact native kind (number also accepts ints, which the spec's oneOf test
requires, producing the float form); under `strict=false` a textual
representation is parsed. -/
def bare_primitive (t : SchemaType) (strict : Bool) (v : PyVal) :
    Except UErr PyVal :=
  match t with
  | .integer =>
    match v with
    | .int n => .ok (.int n)
    | .str s =>
      if strict then .error .unmarshalError
      else
        match strToInt s with
        | some n => .ok (.int n)
        | Option.none => .error .unmarshalError
    | _ => .error .unmarshalError
  | .number =>
    match v with
    | .int n => .ok (.float (n : Rat))
    | .float q => .ok (.float q)
    | .str s =>
      if strict then .error .unmarshalError
      else
        match strToFloat s with
        | some q => .ok (.float q)
        | Option.none => .error .unmarshalError
    | _ => .error .unmarshalError
  | .string =>
    match v with
    | .str s => .ok (.str s)
    | _ => .error .unmarshalError
  | .boolean =>
    match v with
    | .bool b => .ok (.bool b)
    | .str s =>
      if strict then .error .unmarshalError
      else
        match forcebool (.str s) with
        | .ok b => .ok b
        | .error _ => .error .unmarshalError
    | _ => .error .unmarshalError
  | _ => .error .unmarshalError

/-- Modelled from the spec: the primitive unmarshaller for `(type, format)`
(spec §4.2/§4.4): the bare conversion runs under the `strict` policy; when a
format name resolves to a caller-supplied entry the entry's unmarshal function
applies (its failure is an unmarshal failure); an unknown or absent format is
tolerated and yields the bare primitive (spec §8 "Unknown format
tolerance"). -/
def unmarshal_primitive (t : SchemaType) (fmt : Option String)
    (cf : CustomFormatters) (strict : Bool) (v : PyVal) : Except UErr PyVal :=
  match bare_primitive t strict v with
  | .error e => .error e
  | .ok u =>
    match fmt with
    | Option.none => .ok u
    | some fname =>
      match fmtLookup cf fname with
      | Option.none => .ok u
      | some fn =>
        match fn u with
        | some r => .ok r
        | Option.none => .error .unmarshalError

/-- The type-precedence loop of `_unmarshal_any` (models.py lines 235-243):
run the attempts in order, return the first that does not raise a catchable
error (accumulating the warnings each executed attempt logged); when every
attempt fails, log the failed-to-unmarshal warning and return the raw value
unchanged. -/
def firstSuccess (v : PyVal) :
    List (Except UErr PyVal × List Warning) →
      Except UErr PyVal × List Warning
  | [] => (.ok v, [.failedAnyType])
  | (r, ws) :: rest =>
    match r with
    | .ok u => (.ok u, ws)
    | .error _ =>
      let p := firstSuccess v rest
      (p.1, ws ++ p.2)

/-- The oneOf loop of `_unmarshal_any` (models.py lines 217-233): `result`
starts as Python `None`; an `UnmarshalError` from an alternative is swallowed;
a success is recorded only when `result` is still `None`, otherwise the
multiple-valid-schemas warning is logged and the recorded result kept; a
non-`UnmarshalError` exception propagates; at the end a still-`None` result
logs the not-found warning. -/
def oneOfFold (result : PyVal) (ws : List Warning) :
    List (Except UErr PyVal × List Warning) →
      Except UErr PyVal × List Warning
  | [] =>
    if result.isNone then (.ok result, ws ++ [.oneOfNotFound])
    else (.ok result, ws)
  | (r, w) :: rest =>
    match r with
    | .error .unmarshalError => oneOfFold result (ws ++ w) rest
    | .error .valueError => (.error .valueError, ws ++ w)
    | .ok u =>
      if result.isNone then oneOfFold u (ws ++ w) rest
      else oneOfFold result (ws ++ w ++ [.multipleOneOf]) rest

/-- Sequence elementwise unmarshal outcomes in order, stopping at the first
failure (`list(map(...))` evaluation), accumulating logged warnings. -/
def seqResults :
    List (Except UErr PyVal × List Warning) →
      Except UErr (List PyVal) × List Warning
  | [] => (.ok [], [])
  | (r, w) :: rest =>
    match r with
    | .error e => (.error e, w)
    | .ok u =>
      let p := seqResults rest
      match p.1 with
      | .error e => (.error e, w ++ p.2)
      | .ok us => (.ok (u :: us), w ++ p.2)

/-- Sequence named property unmarshal outcomes in order, stopping at the
first failure, accumulating logged warnings. -/
def seqNamed :
    List (String × (Except UErr PyVal × List Warning)) →
      Except UErr (List (String × PyVal)) × List Warning
  | [] => (.ok [], [])
  | (n, (r, w)) :: rest =>
    match r with
    | .error e => (.error e, w)
    | .ok u =>
      let p := seqNamed rest
      match p.1 with
      | .error e => (.error e, w ++ p.2)
      | .ok us => (.ok ((n, u) :: us), w ++ p.2)

mutual

/-- Modelled from the spec: the unmarshalling entry point.  `Schema.unmarshal`
(models.py lines 201-209) delegates to the unmarshallers factory, which is not
among the given sources; spec §4.4 gives its contract: a null-equivalent value
returns unchanged regardless of schema type; otherwise dispatch on the schema
type — any/array/object to the dedicated engines, the primitive types to the
format-aware primitive unmarshaller.  The second component collects the
warnings the call logs. -/
def unmarshal (s : Schema) (v : PyVal) (cf : CustomFormatters)
    (strict : Bool) : Except UErr PyVal × List Warning :=
  if v.isNone then (.ok v, [])
  else
    match s.type with
    | .any => _unmarshal_any s v cf strict
    | .array => _unmarshal_collection s v cf strict
    | .object => _unmarshal_object s v cf strict
    | .integer => (unmarshal_primitive .integer s.format cf strict v, [])
    | .number => (unmarshal_primitive .number s.format cf strict v, [])
    | .string => (unmarshal_primitive .string s.format cf strict v, [])
    | .boolean => (unmarshal_primitive .boolean s.format cf strict v, [])
termination_by (sizeOf s, 3)
decreasing_by
  · exact Prod.Lex.right _ (by omega)
  · exact Prod.Lex.right _ (by omega)
  · exact Prod.Lex.right _ (by omega)

/-- Translation of `Schema._unmarshal_any` (models.py lines 211-243).  With a
truthy `one_of` the loop over the alternatives runs (each alternative
unmarshalled via `subschema.unmarshal(value, custom_formatters)`, hence with
the default `strict=True`); otherwise the fixed `types_resolve_order` —
object, array, boolean, integer, number, string — is attempted through the
unmarshal mapping obtained with default arguments. -/
def _unmarshal_any (s : Schema) (v : PyVal) (cf : CustomFormatters)
    (strict : Bool) : Except UErr PyVal × List Warning :=
  if s.one_of.isEmpty then
    firstSuccess v
      ([SchemaType.object, SchemaType.array, SchemaType.boolean,
        SchemaType.integer, SchemaType.number, SchemaType.string].map
        (fun t => unmarshal_as s t v))
  else
    oneOfFold PyVal.none []
      (s.one_of.attach.map (fun x => unmarshal x.1 v cf true))
termination_by (sizeOf s, 2)
decreasing_by
  · exact Prod.Lex.right _ (by omega)
  · exact Prod.Lex.left _ _ (sizeOf_mem_one_of s x.1 x.2)

/-- The callable `unmarshal_mapping[t]` of `self.get_unmarshal_mapping()`
called with default arguments (models.py lines 168-187 as used at line 216):
object and array dispatch to the same node's object/collection engines with
`custom_formatters=None, strict=True`; each primitive type to the primitive
unmarshaller partial-applied with `type_format=self.format` and
`strict=True`.  The mapping's ANY entry is never consulted, because
`types_resolve_order` does not contain ANY; the ANY row below is an arbitrary
placeholder for that dead entry. -/
def unmarshal_as (s : Schema) (t : SchemaType) (v : PyVal) :
    Except UErr PyVal × List Warning :=
  match t with
  | .object => _unmarshal_object s v [] true
  | .array => _unmarshal_collection s v [] true
  | .any => (.ok v, [])
  | .integer => (unmarshal_primitive .integer s.format [] true v, [])
  | .number => (unmarshal_primitive .number s.format [] true v, [])
  | .string => (unmarshal_primitive .string s.format [] true v, [])
  | .boolean => (unmarshal_primitive .boolean s.format [] true v, [])
termination_by (sizeOf s, 1)
decreasing_by
  · exact Prod.Lex.right _ (by omega)
  · exact Prod.Lex.right _ (by omega)

/-- Modelled from the spec: the array engine (spec §4.4): the value must be an
ordered sequence, each element is unmarshalled recursively against
`schema.items` in original order, and an element failure propagates as the
array's failure; an array schema without `items` (spec §3 requires `items`
for arrays) cannot unmarshal any list. -/
def _unmarshal_collection (s : Schema) (v : PyVal) (cf : CustomFormatters)
    (strict : Bool) : Except UErr PyVal × List Warning :=
  match v with
  | .list xs =>
    match hitems : s.items with
    | Option.none => (.error .unmarshalError, [])
    | some it =>
      let p := seqResults (xs.map (fun x => unmarshal it x cf strict))
      (p.1.map PyVal.list, p.2)
  | _ => (.error .unmarshalError, [])
termination_by (sizeOf s, 0)
decreasing_by
  exact Prod.Lex.left _ _ (sizeOf_items_lt s it hitems)

/-- Modelled from the spec: the object engine (spec §4.4): the value must be a
dict; every property name of `schema.all_properties()` present in the value is
unmarshalled against that property's schema, absent declared properties are
omitted, and undeclared entries follow the `additional_properties` policy —
a schema unmarshal them, `True` passes them through, `False` drops them. -/
def _unmarshal_object (s : Schema) (v : PyVal) (cf : CustomFormatters)
    (strict : Bool) : Except UErr PyVal × List Warning :=
  match v with
  | .dict kvs =>
    let props := get_all_properties s
    let declared : List (String × (Except UErr PyVal × List Warning)) :=
      (props.attach.map (fun x =>
        match pvLookup kvs x.1.1 with
        | some pv => some (x.1.1, unmarshal x.1.2 pv cf strict)
        | Option.none => Option.none)).filterMap id
    let extras0 := kvs.filter (fun kv => !(props.any (fun p => p.1 = kv.1)))
    let extras : List (String × (Except UErr PyVal × List Warning)) :=
      match hap : s.additional_properties with
      | Sum.inl true => extras0.map (fun kv => (kv.1, (.ok kv.2, [])))
      | Sum.inl false => []
      | Sum.inr ap => extras0.map (fun kv => (kv.1, unmarshal ap kv.2 cf strict))
    let p := seqNamed (declared ++ extras)
    (p.1.map PyVal.dict, p.2)
  | _ => (.error .unmarshalError, [])
termination_by (sizeOf s, 0)
decreasing_by
  · exact Prod.Lex.left _ _ (sizeOf_mem_get_all_properties s x.1 x.2)
  · exact Prod.Lex.left _ _ (sizeOf_additional_properties_lt s ap hap)

end

theorem bare_primitive_ne (t : SchemaType) (st : Bool) (v : PyVal) :
    bare_primitive t st v ≠ .error .valueError := by
  intro h
  unfold bare_primitive at h
  repeat' split at h
  all_goals simp_all

theorem unmarshal_primitive_ne (t : SchemaType) (fmt : Option String)
    (cf : CustomFormatters) (st : Bool) (v : PyVal) :
    unmarshal_primitive t fmt cf st v ≠ .error .valueError := by
  have hne := bare_primitive_ne t st v
  cases hb : bare_primitive t st v with
  | error e =>
    rw [hb] at hne
    simp only [unmarshal_primitive, hb]
    intro h
    injection h with h2
    rw [h2] at hne
    exact hne rfl
  | ok u =>
    simp only [unmarshal_primitive, hb]
    cases fmt with
    | none => simp
    | some fname =>
      cases hfl : fmtLookup cf fname with
      | none => simp [hfl]
      | some fn =>
        cases hfn : fn u with
        | none => simp [hfl, hfn]
        | some r => simp [hfl, hfn]

theorem except_map_ne {α β : Type _} (f : α → β) (x : Except UErr α)
    (h : x ≠ .error .valueError) : x.map f ≠ .error .valueError := by
  cases x with
  | ok a => simp [Except.map]
  | error e =>
    simp only [Except.map]
    intro hcon
    injection hcon with h2
    rw [h2] at h
    exact h rfl

theorem seqResults_ne (l : List (Except UErr PyVal × List Warning))
    (h : ∀ x ∈ l, x.1 ≠ .error .valueError) :
    (seqResults l).1 ≠ .error .valueError := by
  induction l with
  | nil => simp [seqResults]
  | cons x rest ih =>
    obtain ⟨r, w⟩ := x
    have hx : r ≠ .error .valueError := h (r, w) (by simp)
    have hrest := ih (fun y hy => h y (by simp [hy]))
    cases r with
    | error e =>
      simp only [seqResults]
      intro hcon
      injection hcon with h2
      rw [h2] at hx
      exact hx rfl
    | ok u =>
      simp only [seqResults]
      cases hs : (seqResults rest).1 with
      | error e =>
        rw [hs] at hrest
        simp only []
        intro hcon
        injection hcon with h2
        rw [h2] at hrest
        exact hrest rfl
      | ok us => simp

theorem seqNamed_ne (l : List (String × (Except UErr PyVal × List Warning)))
    (h : ∀ x ∈ l, x.2.1 ≠ .error .valueError) :
    (seqNamed l).1 ≠ .error .valueError := by
  induction l with
  | nil => simp [seqNamed]
  | cons x rest ih =>
    obtain ⟨n, r, w⟩ := x
    have hx : r ≠ .error .valueError := h (n, r, w) (by simp)
    have hrest := ih (fun y hy => h y (by simp [hy]))
    cases r with
    | error e =>
      simp only [seqNamed]
      intro hcon
      injection hcon with h2
      rw [h2] at hx
      exact hx rfl
    | ok u =>
      simp only [seqNamed]
      cases hs : (seqNamed rest).1 with
      | error e =>
        rw [hs] at hrest
        simp only []
        intro hcon
        injection hcon with h2
        rw [h2] at hrest
        exact hrest rfl
      | ok us => simp

theorem firstSuccess_ok (v : PyVal)
    (l : List (Except UErr PyVal × List Warning)) :
    ∃ u, (firstSuccess v l).1 = .ok u := by
  induction l with
  | nil => exact ⟨v, rfl⟩
  | cons x rest ih =>
    obtain ⟨r, w⟩ := x
    cases r with
    | ok u => exact ⟨u, rfl⟩
    | error e =>
      obtain ⟨u, hu⟩ := ih
      exact ⟨u, by simp [firstSuccess, hu]⟩

theorem oneOfFold_ne (l : List (Except UErr PyVal × List Warning))
    (res : PyVal) (ws : List Warning)
    (h : ∀ x ∈ l, x.1 ≠ .error .valueError) :
    (oneOfFold res ws l).1 ≠ .error .valueError := by
  induction l generalizing res ws with
  | nil =>
    simp only [oneOfFold]
    split <;> simp
  | cons x rest ih =>
    obtain ⟨r, w⟩ := x
    have hx : r ≠ .error .valueError := h (r, w) (by simp)
    have hrest : ∀ y ∈ rest, y.1 ≠ .error .valueError :=
      fun y hy => h y (by simp [hy])
    cases r with
    | error e =>
      cases e with
      | unmarshalError => exact ih res (ws ++ w) hrest
      | valueError => exact absurd rfl hx
    | ok u =>
      simp only [oneOfFold]
      split
      · exact ih u (ws ++ w) hrest
      · exact ih res (ws ++ w ++ [.multipleOneOf]) hrest

theorem mem_declared_inv (props : List (String × Schema))
    (kvs : List (String × PyVal)) (cf : CustomFormatters) (st : Bool)
    (y : String × (Except UErr PyVal × List Warning))
    (hy : y ∈ (props.attach.map (fun x =>
        match pvLookup kvs x.1.1 with
        | some pv => some (x.1.1, unmarshal x.1.2 pv cf st)
        | Option.none => Option.none)).filterMap id) :
    ∃ p ∈ props, ∃ pv, y = (p.1, unmarshal p.2 pv cf st) := by
  obtain ⟨a, ha, hay⟩ := List.mem_filterMap.mp hy
  obtain ⟨x, hx, hxa⟩ := List.mem_map.mp ha
  cases hpv : pvLookup kvs x.1.1 with
  | none =>
    rw [hpv] at hxa
    rw [← hxa] at hay
    simp at hay
  | some pv =>
    rw [hpv] at hxa
    rw [← hxa] at hay
    simp only [id_eq, Option.some.injEq] at hay
    exact ⟨x.1, x.2, pv, hay.symm⟩

theorem unmarshal_ne_valueError_aux (n : Nat) : ∀ s : Schema, sizeOf s ≤ n →
    (∀ v cf st, (_unmarshal_collection s v cf st).1 ≠ .error .valueError) ∧
    (∀ v cf st, (_unmarshal_object s v cf st).1 ≠ .error .valueError) ∧
    (∀ t v, (unmarshal_as s t v).1 ≠ .error .valueError) ∧
    (∀ v cf st, (_unmarshal_any s v cf st).1 ≠ .error .valueError) ∧
    (∀ v cf st, (unmarshal s v cf st).1 ≠ .error .valueError) := by
  induction n with
  | zero =>
    intro s hs
    have := sizeOf_data_lt s
    omega
  | succ n ih =>
    intro s hs
    have hcoll : ∀ v cf st,
        (_unmarshal_collection s v cf st).1 ≠ .error .valueError := by
      intro v cf st
      rw [_unmarshal_collection.eq_def]
      split
      · split
        · simp
        · rename_i xs it heq
          show (Except.map PyVal.list
            (seqResults (xs.map fun x => unmarshal it x cf st)).1) ≠
            .error .valueError
          apply except_map_ne
          apply seqResults_ne
          intro x hx
          obtain ⟨xv, hxv, hxe⟩ := List.mem_map.mp hx
          have hit := sizeOf_items_lt s it heq
          have hu := (ih it (by omega)).2.2.2.2 xv cf st
          rw [← hxe]
          exact hu
      · simp
    have hobj : ∀ v cf st,
        (_unmarshal_object s v cf st).1 ≠ .error .valueError := by
      intro v cf st
      rw [_unmarshal_object.eq_def]
      split
      · rename_i kvs
        apply except_map_ne
        apply seqNamed_ne
        intro y hy
        rw [List.mem_append] at hy
        cases hy with
        | inl hdec =>
          obtain ⟨p, hp, pv, hyeq⟩ :=
            mem_declared_inv (get_all_properties s) kvs cf st y hdec
          have hps := sizeOf_mem_get_all_properties s p hp
          have hu := (ih p.2 (by omega)).2.2.2.2 pv cf st
          rw [hyeq]
          exact hu
        | inr hext =>
          revert hext
          cases hap2 : s.additional_properties with
          | inl b =>
            cases b with
            | true =>
              intro hext
              obtain ⟨kv, hkv, hkve⟩ := List.mem_map.mp hext
              rw [← hkve]
              simp
            | false =>
              intro hext
              simp at hext
          | inr ap =>
            intro hext
            obtain ⟨kv, hkv, hkve⟩ := List.mem_map.mp hext
            have hps := sizeOf_additional_properties_lt s ap hap2
            have hu := (ih ap (by omega)).2.2.2.2 kv.2 cf st
            rw [← hkve]
            exact hu
      · simp
    have has : ∀ t v, (unmarshal_as s t v).1 ≠ .error .valueError := by
      intro t v
      rw [unmarshal_as.eq_def]
      cases t
      case object => intro h; exact hobj v [] true h
      case array => intro h; exact hcoll v [] true h
      case any => simp
      case integer =>
        intro h
        exact unmarshal_primitive_ne SchemaType.integer s.format [] true v h
      case number =>
        intro h
        exact unmarshal_primitive_ne SchemaType.number s.format [] true v h
      case string =>
        intro h
        exact unmarshal_primitive_ne SchemaType.string s.format [] true v h
      case boolean =>
        intro h
        exact unmarshal_primitive_ne SchemaType.boolean s.format [] true v h
    have hany : ∀ v cf st,
        (_unmarshal_any s v cf st).1 ≠ .error .valueError := by
      intro v cf st
      rw [_unmarshal_any.eq_def]
      split
      · obtain ⟨u, hu⟩ := firstSuccess_ok v
          ([SchemaType.object, SchemaType.array, SchemaType.boolean,
            SchemaType.integer, SchemaType.number, SchemaType.string].map
            (fun t => unmarshal_as s t v))
        rw [hu]
        simp
      · apply oneOfFold_ne
        intro x hx
        obtain ⟨xs, hxs, hxe⟩ := List.mem_map.mp hx
        have hlt := sizeOf_mem_one_of s xs.1 xs.2
        have hu := (ih xs.1 (by omega)).2.2.2.2 v cf true
        rw [← hxe]
        exact hu
    have hunm : ∀ v cf st, (unmarshal s v cf st).1 ≠ .error .valueError := by
      intro v cf st
      rw [unmarshal.eq_def]
      split
      · simp
      · cases ht : s.type
        case any => intro h; exact hany v cf st h
        case array => intro h; exact hcoll v cf st h
        case object => intro h; exact hobj v cf st h
        case integer =>
          intro h
          exact unmarshal_primitive_ne SchemaType.integer s.format cf st v h
        case number =>
          intro h
          exact unmarshal_primitive_ne SchemaType.number s.format cf st v h
        case string =>
          intro h
          exact unmarshal_primitive_ne SchemaType.string s.format cf st v h
        case boolean =>
          intro h
          exact unmarshal_primitive_ne SchemaType.boolean s.format cf st v h
    exact ⟨hcoll, hobj, has, hany, hunm⟩

theorem unmarshal_ne_valueError (s : Schema) (v : PyVal)
    (cf : CustomFormatters) (st : Bool) :
    (unmarshal s v cf st).1 ≠ .error .valueError :=
  (unmarshal_ne_valueError_aux (sizeOf s) s (Nat.le_refl _)).2.2.2.2 v cf st

/-- The non-null successful results among a list of alternative outcomes, in
declaration order: an alternative that raises, and an alternative that
succeeds with Python `None`, both contribute nothing. -/
def succList (l : List (Except UErr PyVal × List Warning)) : List PyVal :=
  l.filterMap (fun x =>
    match x.1 with
    | .ok u => if u.isNone then Option.none else some u
    | .error _ => Option.none)

theorem oneOfFold_nil (r : PyVal) (ws : List Warning) :
    oneOfFold r ws [] =
      if r.isNone then (.ok r, ws ++ [.oneOfNotFound]) else (.ok r, ws) := rfl

theorem oneOfFold_cons_ok (r u : PyVal) (ws xw : List Warning)
    (rest : List (Except UErr PyVal × List Warning)) :
    oneOfFold r ws ((Except.ok u, xw) :: rest) =
      if r.isNone then oneOfFold u (ws ++ xw) rest
      else oneOfFold r (ws ++ xw ++ [.multipleOneOf]) rest := rfl

theorem oneOfFold_cons_err (r : PyVal) (ws xw : List Warning)
    (rest : List (Except UErr PyVal × List Warning)) :
    oneOfFold r ws ((Except.error .unmarshalError, xw) :: rest) =
      oneOfFold r (ws ++ xw) rest := rfl

theorem none_isNone : PyVal.none.isNone = true := rfl

theorem oneOfFold_locked (l : List (Except UErr PyVal × List Warning))
    (r : PyVal) (hr : r.isNone = false)
    (hv : ∀ x ∈ l, x.1 ≠ .error .valueError) :
    ∀ ws, (oneOfFold r ws l).1 = .ok r := by
  induction l with
  | nil =>
    intro ws
    rw [oneOfFold_nil, if_neg (by rw [hr]; exact Bool.false_ne_true)]
  | cons x rest ih =>
    intro ws
    obtain ⟨xr, xw⟩ := x
    have hvx : xr ≠ .error .valueError := hv (xr, xw) (by simp)
    have hvr : ∀ y ∈ rest, y.1 ≠ .error .valueError :=
      fun y hy => hv y (by simp [hy])
    cases xr with
    | error e =>
      cases e with
      | unmarshalError =>
        rw [oneOfFold_cons_err]
        exact ih hvr (ws ++ xw)
      | valueError => exact absurd rfl hvx
    | ok u =>
      rw [oneOfFold_cons_ok, if_neg (by rw [hr]; exact Bool.false_ne_true)]
      exact ih hvr (ws ++ xw ++ [.multipleOneOf])

theorem oneOfFold_result (l : List (Except UErr PyVal × List Warning))
    (hv : ∀ x ∈ l, x.1 ≠ .error .valueError) :
    ∀ ws, (oneOfFold PyVal.none ws l).1 =
      .ok ((succList l).headD PyVal.none) := by
  induction l with
  | nil =>
    intro ws
    rw [oneOfFold_nil, if_pos none_isNone]
    simp [succList]
  | cons x rest ih =>
    intro ws
    obtain ⟨xr, xw⟩ := x
    have hvx : xr ≠ .error .valueError := hv (xr, xw) (by simp)
    have hvr : ∀ y ∈ rest, y.1 ≠ .error .valueError :=
      fun y hy => hv y (by simp [hy])
    cases xr with
    | error e =>
      cases e with
      | unmarshalError =>
        rw [oneOfFold_cons_err]
        have hs : succList ((Except.error UErr.unmarshalError, xw) :: rest) =
            succList rest := by simp [succList, List.filterMap_cons]
        rw [hs]
        exact ih hvr (ws ++ xw)
      | valueError => exact absurd rfl hvx
    | ok u =>
      rw [oneOfFold_cons_ok, if_pos none_isNone]
      cases hu : u.isNone with
      | true =>
        have hueq : u = PyVal.none := (PyVal.isNone_iff u).mp hu
        subst hueq
        have hs : succList ((Except.ok PyVal.none, xw) :: rest) =
            succList rest := by
          simp [succList, List.filterMap_cons, PyVal.isNone]
        rw [hs]
        exact ih hvr (ws ++ xw)
      | false =>
        have hs : succList ((Except.ok u, xw) :: rest) = u :: succList rest := by
          simp [succList, List.filterMap_cons, hu]
        rw [hs]
        rw [oneOfFold_locked rest u hu hvr (ws ++ xw)]
        simp

theorem oneOfFold_warnings_prefix (l : List (Except UErr PyVal × List Warning)) :
    ∀ r ws, ∃ ws2, (oneOfFold r ws l).2 = ws ++ ws2 := by
  induction l with
  | nil =>
    intro r ws
    rw [oneOfFold_nil]
    by_cases hr : r.isNone = true
    · rw [if_pos hr]
      exact ⟨[.oneOfNotFound], rfl⟩
    · rw [if_neg hr]
      exact ⟨[], by simp⟩
  | cons x rest ih =>
    intro r ws
    obtain ⟨xr, xw⟩ := x
    cases xr with
    | error e =>
      cases e with
      | unmarshalError =>
        rw [oneOfFold_cons_err]
        obtain ⟨ws2, h2⟩ := ih r (ws ++ xw)
        exact ⟨xw ++ ws2, by rw [h2]; simp⟩
      | valueError => exact ⟨xw, rfl⟩
    | ok u =>
      rw [oneOfFold_cons_ok]
      by_cases hr : r.isNone = true
      · rw [if_pos hr]
        obtain ⟨ws2, h2⟩ := ih u (ws ++ xw)
        exact ⟨xw ++ ws2, by rw [h2]; simp⟩
      · rw [if_neg hr]
        obtain ⟨ws2, h2⟩ := ih r (ws ++ xw ++ [.multipleOneOf])
        exact ⟨xw ++ [.multipleOneOf] ++ ws2, by rw [h2]; simp⟩

theorem oneOfFold_notFound (l : List (Except UErr PyVal × List Warning))
    (hv : ∀ x ∈ l, x.1 ≠ .error .valueError) (hnone : succList l = []) :
    ∀ ws, .oneOfNotFound ∈ (oneOfFold PyVal.none ws l).2 := by
  induction l with
  | nil =>
    intro ws
    rw [oneOfFold_nil, if_pos none_isNone]
    simp
  | cons x rest ih =>
    intro ws
    obtain ⟨xr, xw⟩ := x
    have hvx : xr ≠ .error .valueError := hv (xr, xw) (by simp)
    have hvr : ∀ y ∈ rest, y.1 ≠ .error .valueError :=
      fun y hy => hv y (by simp [hy])
    cases xr with
    | error e =>
      cases e with
      | unmarshalError =>
        rw [oneOfFold_cons_err]
        have hs : succList ((Except.error UErr.unmarshalError, xw) :: rest) =
            succList rest := by simp [succList, List.filterMap_cons]
        rw [hs] at hnone
        exact ih hvr hnone (ws ++ xw)
      | valueError => exact absurd rfl hvx
    | ok u =>
      rw [oneOfFold_cons_ok, if_pos none_isNone]
      cases hu : u.isNone with
      | true =>
        have hueq : u = PyVal.none := (PyVal.isNone_iff u).mp hu
        subst hueq
        have hs : succList ((Except.ok PyVal.none, xw) :: rest) =
            succList rest := by
          simp [succList, List.filterMap_cons, PyVal.isNone]
        rw [hs] at hnone
        exact ih hvr hnone (ws ++ xw)
      | false =>
        have hs : succList ((Except.ok u, xw) :: rest) = u :: succList rest := by
          simp [succList, List.filterMap_cons, hu]
        rw [hs] at hnone
        exact absurd hnone (by simp)

theorem succList_mem_ok (l : List (Except UErr PyVal × List Warning))
    (u : PyVal) (hu : u ∈ succList l) : ∃ x ∈ l, x.1 = .ok u := by
  obtain ⟨x, hx, hxu⟩ := List.mem_filterMap.mp hu
  refine ⟨x, hx, ?_⟩
  cases hr : x.1 with
  | ok w =>
    rw [hr] at hxu
    by_cases hw : w.isNone = true
    · simp [hw] at hxu
    · have hwf : w.isNone = false := by revert hw; cases w.isNone <;> simp
      simp [hwf] at hxu
      rw [hxu]
  | error e => rw [hr] at hxu; simp at hxu

theorem oneOfFold_locked_multiple
    (l : List (Except UErr PyVal × List Warning)) (r : PyVal)
    (hr : r.isNone = false) (hv : ∀ x ∈ l, x.1 ≠ .error .valueError)
    (hex : ∃ x ∈ l, ∃ u, x.1 = .ok u) :
    ∀ ws, .multipleOneOf ∈ (oneOfFold r ws l).2 := by
  induction l with
  | nil => simp at hex
  | cons x rest ih =>
    intro ws
    obtain ⟨xr, xw⟩ := x
    have hvx : xr ≠ .error .valueError := hv (xr, xw) (by simp)
    have hvr : ∀ y ∈ rest, y.1 ≠ .error .valueError :=
      fun y hy => hv y (by simp [hy])
    cases xr with
    | error e =>
      cases e with
      | unmarshalError =>
        rw [oneOfFold_cons_err]
        have hex2 : ∃ y ∈ rest, ∃ u, y.1 = .ok u := by
          obtain ⟨y, hy, u, hyu⟩ := hex
          rcases List.mem_cons.mp hy with hy1 | hy1
          · rw [hy1] at hyu; simp at hyu
          · exact ⟨y, hy1, u, hyu⟩
        exact ih hvr hex2 (ws ++ xw)
      | valueError => exact absurd rfl hvx
    | ok u =>
      rw [oneOfFold_cons_ok, if_neg (by rw [hr]; exact Bool.false_ne_true)]
      obtain ⟨ws2, h2⟩ :=
        oneOfFold_warnings_prefix rest r (ws ++ xw ++ [.multipleOneOf])
      rw [h2]
      simp

theorem oneOfFold_multiple (l : List (Except UErr PyVal × List Warning))
    (hv : ∀ x ∈ l, x.1 ≠ .error .valueError)
    (h2 : 2 ≤ (succList l).length) :
    ∀ ws, .multipleOneOf ∈ (oneOfFold PyVal.none ws l).2 := by
  induction l with
  | nil => simp [succList] at h2
  | cons x rest ih =>
    intro ws
    obtain ⟨xr, xw⟩ := x
    have hvx : xr ≠ .error .valueError := hv (xr, xw) (by simp)
    have hvr : ∀ y ∈ rest, y.1 ≠ .error .valueError :=
      fun y hy => hv y (by simp [hy])
    cases xr with
    | error e =>
      cases e with
      | unmarshalError =>
        rw [oneOfFold_cons_err]
        have hs : succList ((Except.error UErr.unmarshalError, xw) :: rest) =
            succList rest := by simp [succList, List.filterMap_cons]
        rw [hs] at h2
        exact ih hvr h2 (ws ++ xw)
      | valueError => exact absurd rfl hvx
    | ok u =>
      rw [oneOfFold_cons_ok, if_pos none_isNone]
      cases hu : u.isNone with
      | true =>
        have hueq : u = PyVal.none := (PyVal.isNone_iff u).mp hu
        subst hueq
        have hs : succList ((Except.ok PyVal.none, xw) :: rest) =
            succList rest := by
          simp [succList, List.filterMap_cons, PyVal.isNone]
        rw [hs] at h2
        exact ih hvr h2 (ws ++ xw)
      | false =>
        have hs : succList ((Except.ok u, xw) :: rest) = u :: succList rest := by
          simp [succList, List.filterMap_cons, hu]
        rw [hs] at h2
        have hlen : 1 ≤ (succList rest).length := by
          simp at h2
          omega
        have hex : ∃ y ∈ rest, ∃ w, y.1 = .ok w := by
          cases hsr : succList rest with
          | nil => rw [hsr] at hlen; simp at hlen
          | cons w ws3 =>
            have hw : w ∈ succList rest := by rw [hsr]; simp
            obtain ⟨y, hy, hyo⟩ := succList_mem_ok rest w hw
            exact ⟨y, hy, w, hyo⟩
        exact oneOfFold_locked_multiple rest u hu hvr hex (ws ++ xw)

theorem unmarshal_any_oneOf_eq (s : Schema) (v : PyVal)
    (cf : CustomFormatters) (st : Bool) (h : s.one_of ≠ []) :
    _unmarshal_any s v cf st =
      oneOfFold PyVal.none []
        (s.one_of.map (fun sub => unmarshal sub v cf true)) := by
  rw [_unmarshal_any.eq_def, if_neg (by simp [List.isEmpty_iff, h]),
    attach_map_fst s.one_of (fun sub => unmarshal sub v cf true)]

theorem unmarshal_any_precedence_eq (s : Schema) (v : PyVal)
    (cf : CustomFormatters) (st : Bool) (h : s.one_of = []) :
    _unmarshal_any s v cf st =
      firstSuccess v
        ([SchemaType.object, SchemaType.array, SchemaType.boolean,
          SchemaType.integer, SchemaType.number, SchemaType.string].map
          (fun t => unmarshal_as s t v)) := by
  rw [_unmarshal_any.eq_def, if_pos (by simp [List.isEmpty_iff, h])]

theorem unmarshal_as_eq (s : Schema) (t : SchemaType) (v : PyVal) :
    unmarshal_as s t v =
      match t with
      | .object => _unmarshal_object s v [] true
      | .array => _unmarshal_collection s v [] true
      | .any => (.ok v, [])
      | .integer => (unmarshal_primitive .integer s.format [] true v, [])
      | .number => (unmarshal_primitive .number s.format [] true v, [])
      | .string => (unmarshal_primitive .string s.format [] true v, [])
      | .boolean => (unmarshal_primitive .boolean s.format [] true v, []) := by
  rw [unmarshal_as.eq_def]

theorem firstSuccess_all_fail (v : PyVal)
    (l : List (Except UErr PyVal × List Warning))
    (h : ∀ x ∈ l, ∃ e, x.1 = .error e) :
    (firstSuccess v l).1 = .ok v ∧ .failedAnyType ∈ (firstSuccess v l).2 := by
  induction l with
  | nil => simp [firstSuccess]
  | cons x rest ih =>
    obtain ⟨xr, xw⟩ := x
    obtain ⟨e, he⟩ := h (xr, xw) (by simp)
    simp only [] at he
    subst he
    have ih2 := ih (fun y hy => h y (by simp [hy]))
    simp only [firstSuccess]
    exact ⟨ih2.1, by simp [ih2.2]⟩

theorem firstSuccess_first_ok (v : PyVal)
    (l1 : List (Except UErr PyVal × List Warning))
    (x : Except UErr PyVal × List Warning)
    (l2 : List (Except UErr PyVal × List Warning))
    (hfail : ∀ y ∈ l1, ∃ e, y.1 = .error e)
    (r : PyVal) (hx : x.1 = .ok r) :
    (firstSuccess v (l1 ++ x :: l2)).1 = .ok r := by
  induction l1 with
  | nil =>
    obtain ⟨xr, xw⟩ := x
    simp only [] at hx
    subst hx
    rfl
  | cons y rest ih =>
    obtain ⟨yr, yw⟩ := y
    obtain ⟨e, he⟩ := hfail (yr, yw) (by simp)
    simp only [] at he
    subst he
    simp only [List.cons_append, firstSuccess]
    exact ih (fun z hz => hfail z (by simp [hz]))

/-- Schema with no declared type (the wildcard any-kind) and no `one_of`. -/
def exAnySchema : Schema := .mk {}

/-- C9: on the type-precedence path (a schema with no `one_of`
alternatives), the result of `_unmarshal_any` does not depend on the
`custom_formatters` and `strict` arguments passed to it, because every
candidate attempt is built from `self.get_unmarshal_mapping()` called with
its default arguments (`custom_formatters=None`, `strict=True`). -/
theorem unmarshal_any_precedence_ignores_args (s : Schema) (v : PyVal)
    (cf1 cf2 : CustomFormatters) (st1 st2 : Bool) (h : s.one_of = []) :
    _unmarshal_any s v cf1 st1 = _unmarshal_any s v cf2 st2 := by
  rw [unmarshal_any_precedence_eq s v cf1 st1 h,
    unmarshal_any_precedence_eq s v cf2 st2 h]

/-- Custom formatter used in witnesses: rewrites every value. -/
def exFmtFun : FmtFun := fun _ => some (.str "formatted")

/-- C9 (witness): two calls with different formatter mappings and different
strict flags coincide on a concrete typeless schema. -/
theorem unmarshal_any_precedence_ignores_args_witness :
    exAnySchema.one_of = [] ∧
    _unmarshal_any exAnySchema (.int 5) [("date", exFmtFun)] false =
      _unmarshal_any exAnySchema (.int 5) [] true :=
  ⟨rfl, unmarshal_any_precedence_ignores_args exAnySchema (.int 5)
    [("date", exFmtFun)] [] false true rfl⟩

/-- C3: for a schema with no `one_of`, `_unmarshal_any` tries the candidate
types in exactly the fixed precedence order object, array, boolean, integer,
number, string, returning the result of the first candidate that succeeds
(treating failures as try-next); if every candidate fails it logs the
failed-to-unmarshal warning and returns the original raw value unchanged,
never an error. -/
theorem unmarshal_any_type_precedence (s : Schema) (v : PyVal)
    (cf : CustomFormatters) (st : Bool) (h : s.one_of = []) :
    ((∀ t ∈ [SchemaType.object, SchemaType.array, SchemaType.boolean,
        SchemaType.integer, SchemaType.number, SchemaType.string],
        ∃ e, (unmarshal_as s t v).1 = .error e) →
      (_unmarshal_any s v cf st).1 = .ok v ∧
        .failedAnyType ∈ (_unmarshal_any s v cf st).2) ∧
    (∀ o1 t o2, [SchemaType.object, SchemaType.array, SchemaType.boolean,
        SchemaType.integer, SchemaType.number, SchemaType.string] =
        o1 ++ t :: o2 →
      (∀ u ∈ o1, ∃ e, (unmarshal_as s u v).1 = .error e) →
      ∀ r, (unmarshal_as s t v).1 = .ok r →
      (_unmarshal_any s v cf st).1 = .ok r) := by
  constructor
  · intro hfail
    rw [unmarshal_any_precedence_eq s v cf st h]
    apply firstSuccess_all_fail
    intro x hx
    obtain ⟨t, ht, hte⟩ := List.mem_map.mp hx
    obtain ⟨e, he⟩ := hfail t ht
    exact ⟨e, by rw [← hte]; exact he⟩
  · intro o1 t o2 hsplit hfail r hr
    rw [unmarshal_any_precedence_eq s v cf st h, hsplit, List.map_append,
      List.map_cons]
    apply firstSuccess_first_ok v _ _ _ _ r hr
    intro y hy
    obtain ⟨u, hu, hue⟩ := List.mem_map.mp hy
    obtain ⟨e, he⟩ := hfail u hu
    exact ⟨e, by rw [← hue]; exact he⟩

theorem gap_exAnySchema : get_all_properties exAnySchema = [] := by
  rw [get_all_properties_eq]
  rfl

theorem unmarshal_object_exAny :
    _unmarshal_object exAnySchema (.dict [("k", .int 1)]) [] true =
      (.ok (.dict [("k", .int 1)]), []) := by
  have hat : (get_all_properties exAnySchema).attach = [] :=
    List.attach_eq_nil_iff.mpr gap_exAnySchema
  rw [_unmarshal_object.eq_def]
  simp only [gap_exAnySchema, hat]
  rfl

/-- C3 (witness): on the typeless schema, the dict input `{"k": 1}` is
resolved by the object candidate (the head of the precedence order) and the
object-unmarshalled result is returned; on the `None` input every candidate
fails, the warning is logged and the raw value comes back unchanged. -/
theorem unmarshal_any_type_precedence_witness :
    exAnySchema.one_of = [] ∧
    (_unmarshal_any exAnySchema (.dict [("k", .int 1)]) [] true).1 =
      .ok (.dict [("k", .int 1)]) ∧
    ((_unmarshal_any exAnySchema PyVal.none [] true).1 = .ok PyVal.none ∧
      .failedAnyType ∈ (_unmarshal_any exAnySchema PyVal.none [] true).2) := by
  refine ⟨rfl, ?_, ?_⟩
  · refine (unmarshal_any_type_precedence exAnySchema (.dict [("k", .int 1)])
      [] true rfl).2 [] SchemaType.object
      [SchemaType.array, SchemaType.boolean, SchemaType.integer,
        SchemaType.number, SchemaType.string] rfl
      (by intro u hu; simp at hu) (.dict [("k", .int 1)]) ?_
    rw [unmarshal_as_eq]
    show (_unmarshal_object exAnySchema (.dict [("k", .int 1)]) [] true).1 = _
    rw [unmarshal_object_exAny]
  · refine (unmarshal_any_type_precedence exAnySchema PyVal.none
      [] true rfl).1 ?_
    intro t ht
    fin_cases ht
    · refine ⟨.unmarshalError, ?_⟩
      rw [unmarshal_as_eq]
      show (_unmarshal_object exAnySchema PyVal.none [] true).1 = _
      rw [_unmarshal_object.eq_def]
    · refine ⟨.unmarshalError, ?_⟩
      rw [unmarshal_as_eq]
      show (_unmarshal_collection exAnySchema PyVal.none [] true).1 = _
      rw [_unmarshal_collection.eq_def]
    · refine ⟨.unmarshalError, ?_⟩
      rw [unmarshal_as_eq]
      rfl
    · refine ⟨.unmarshalError, ?_⟩
      rw [unmarshal_as_eq]
      rfl
    · refine ⟨.unmarshalError, ?_⟩
      rw [unmarshal_as_eq]
      rfl
    · refine ⟨.unmarshalError, ?_⟩
      rw [unmarshal_as_eq]
      rfl

theorem oneOfFold_fst_ws (l : List (Except UErr PyVal × List Warning))
    (r : PyVal) : ∀ ws ws', (oneOfFold r ws l).1 = (oneOfFold r ws' l).1 := by
  induction l generalizing r with
  | nil =>
    intro ws ws'
    rw [oneOfFold_nil, oneOfFold_nil]
    by_cases hr : r.isNone = true
    · rw [if_pos hr, if_pos hr]
    · rw [if_neg hr, if_neg hr]
  | cons x rest ih =>
    intro ws ws'
    obtain ⟨xr, xw⟩ := x
    cases xr with
    | error e =>
      cases e with
      | unmarshalError =>
        rw [oneOfFold_cons_err, oneOfFold_cons_err]
        exact ih r (ws ++ xw) (ws' ++ xw)
      | valueError => rfl
    | ok u =>
      rw [oneOfFold_cons_ok, oneOfFold_cons_ok]
      by_cases hr : r.isNone = true
      · rw [if_pos hr, if_pos hr]
        exact ih u (ws ++ xw) (ws' ++ xw)
      · rw [if_neg hr, if_neg hr]
        exact ih r (ws ++ xw ++ [.multipleOneOf]) (ws' ++ xw ++ [.multipleOneOf])

theorem succList_nil_of_collapse (l : List (Except UErr PyVal × List Warning))
    (h : ∀ x ∈ l, x.1 = .ok PyVal.none ∨ x.1 = .error .unmarshalError) :
    succList l = [] := by
  induction l with
  | nil => rfl
  | cons x rest ih =>
    have hx := h x (by simp)
    have ihr := ih (fun y hy => h y (by simp [hy]))
    rcases hx with hx | hx <;>
      simp [succList, List.filterMap_cons, hx, PyVal.isNone] <;>
      simpa [succList] using ihr

theorem oneOfFold_skip_nones (xs rest : List (Except UErr PyVal × List Warning))
    (h : ∀ x ∈ xs, x.1 = .ok PyVal.none ∨ x.1 = .error .unmarshalError) :
    ∀ ws, (oneOfFold PyVal.none ws (xs ++ rest)).1 =
      (oneOfFold PyVal.none ws rest).1 := by
  induction xs with
  | nil => intro ws; rfl
  | cons x xs2 ih =>
    intro ws
    obtain ⟨xr, xw⟩ := x
    have hx := h (xr, xw) (by simp)
    have ihr := ih (fun y hy => h y (by simp [hy]))
    simp only [] at hx
    rcases hx with hx | hx
    · subst hx
      rw [List.cons_append, oneOfFold_cons_ok, if_pos none_isNone]
      rw [ihr (ws ++ xw)]
      exact oneOfFold_fst_ws rest PyVal.none (ws ++ xw) ws
    · subst hx
      rw [List.cons_append, oneOfFold_cons_err]
      rw [ihr (ws ++ xw)]
      exact oneOfFold_fst_ws rest PyVal.none (ws ++ xw) ws

/-- C2 (amended): oneOf resolution never fails hard, but alternatives whose
unmarshalling succeeds with a null result count as non-matches.  With a truthy
`one_of`, `_unmarshal_any` attempts every alternative in declaration order,
forwarding the caller's custom formatters while leaving `strict` at its
default `True`, and returns the first success whose result is non-null
(null/absent when there is none); when no alternative succeeds with a
non-null result the valid-oneOf-not-found warning is logged, and when more
than one alternative succeeds with a non-null result the
multiple-valid-schemas warning is logged while the first such result is
kept. -/
theorem one_of_resolution (s : Schema) (v : PyVal) (cf : CustomFormatters)
    (strict : Bool) (h : s.one_of ≠ []) :
    (_unmarshal_any s v cf strict).1 =
      .ok ((succList (s.one_of.map
        (fun sub => unmarshal sub v cf true))).headD PyVal.none) ∧
    (succList (s.one_of.map (fun sub => unmarshal sub v cf true)) = [] →
      .oneOfNotFound ∈ (_unmarshal_any s v cf strict).2) ∧
    (2 ≤ (succList (s.one_of.map
        (fun sub => unmarshal sub v cf true))).length →
      .multipleOneOf ∈ (_unmarshal_any s v cf strict).2) := by
  have hv : ∀ x ∈ s.one_of.map (fun sub => unmarshal sub v cf true),
      x.1 ≠ .error .valueError := by
    intro x hx
    obtain ⟨sub, hsub, hxe⟩ := List.mem_map.mp hx
    rw [← hxe]
    exact unmarshal_ne_valueError sub v cf true
  refine ⟨?_, ?_, ?_⟩
  · rw [unmarshal_any_oneOf_eq s v cf strict h]
    exact oneOfFold_result _ hv []
  · intro hnil
    rw [unmarshal_any_oneOf_eq s v cf strict h]
    exact oneOfFold_notFound _ hv hnil []
  · intro h2
    rw [unmarshal_any_oneOf_eq s v cf strict h]
    exact oneOfFold_multiple _ hv h2 []

/-- Typeless schema whose `one_of` is a lone boolean alternative: on a
non-boolean input every alternative fails, so its any-typed unmarshal
succeeds with Python `None` (the soft miss). -/
def exNestedAny : Schema := .mk { one_of := [exBoolSchema] }

/-- Schema whose first alternative succeeds with `None` (the nested any) and
whose second alternative is the integer schema. -/
def exOneOfCE : Schema := .mk { one_of := [exNestedAny, exIntSchema] }

/-- The spec's ambiguity example: `one_of: [IntegerSchema, NumberSchema]`. -/
def exOneOfAmb : Schema := .mk { one_of := [exIntSchema, exNumSchema] }

theorem unm_bool_int5 :
    unmarshal exBoolSchema (.int 5) [] true = (.error .unmarshalError, []) := by
  rw [unmarshal.eq_def]
  rfl

theorem unm_int_int5 :
    unmarshal exIntSchema (.int 5) [] true = (.ok (.int 5), []) := by
  rw [unmarshal.eq_def]
  rfl

theorem unm_num_int5 :
    unmarshal exNumSchema (.int 5) [] true =
      (.ok (.float ((5 : Int) : Rat)), []) := by
  rw [unmarshal.eq_def]
  rfl

theorem unm_nested_any :
    unmarshal exNestedAny (.int 5) [] true =
      (.ok PyVal.none, [.oneOfNotFound]) := by
  have h1 : exNestedAny.one_of ≠ [] := by
    simp [exNestedAny, Schema.one_of, Schema.data]
  rw [unmarshal.eq_def]
  show _unmarshal_any exNestedAny (.int 5) [] true = _
  rw [unmarshal_any_oneOf_eq exNestedAny (.int 5) [] true h1]
  have hone : exNestedAny.one_of = [exBoolSchema] := rfl
  rw [hone, List.map_cons, List.map_nil, unm_bool_int5]
  rfl

/-- C2 (counterexample): the first-match tie-break fails when a success
yields `None`.  On input `5`, `exOneOfCE`'s first alternative succeeds (with
result `None`) and its second alternative succeeds with `5`; the claim's
first-successful-alternative rule would return the first result (`None`), but
the code returns the second alternative's result `5`. -/
theorem one_of_first_match_refuted :
    exOneOfCE.one_of = [exNestedAny, exIntSchema] ∧
    (unmarshal exNestedAny (.int 5) [] true).1 = .ok PyVal.none ∧
    (unmarshal exIntSchema (.int 5) [] true).1 = .ok (.int 5) ∧
    (_unmarshal_any exOneOfCE (.int 5) [] true).1 = .ok (.int 5) ∧
    PyVal.none ≠ PyVal.int 5 := by
  refine ⟨rfl, by rw [unm_nested_any], by rw [unm_int_int5], ?_, by simp⟩
  have h1 : exOneOfCE.one_of ≠ [] := by
    simp [exOneOfCE, Schema.one_of, Schema.data]
  rw [unmarshal_any_oneOf_eq exOneOfCE (.int 5) [] true h1]
  have hone : exOneOfCE.one_of = [exNestedAny, exIntSchema] := rfl
  rw [hone, List.map_cons, List.map_cons, List.map_nil, unm_nested_any,
    unm_int_int5]
  rfl

/-- C2 (witness): the spec's ambiguity example — both the integer and the
number alternative succeed on input `5`; the first alternative's integer
result is returned and the ambiguity warning is observable. -/
theorem one_of_resolution_witness :
    exOneOfAmb.one_of ≠ [] ∧
    (_unmarshal_any exOneOfAmb (.int 5) [] true).1 = .ok (.int 5) ∧
    .multipleOneOf ∈ (_unmarshal_any exOneOfAmb (.int 5) [] true).2 := by
  have hne : exOneOfAmb.one_of ≠ [] := by
    simp [exOneOfAmb, Schema.one_of, Schema.data]
  have h := one_of_resolution exOneOfAmb (.int 5) [] true hne
  have hone : exOneOfAmb.one_of = [exIntSchema, exNumSchema] := rfl
  have hmap : exOneOfAmb.one_of.map
      (fun sub => unmarshal sub (.int 5) [] true) =
      [(.ok (.int 5), []), (.ok (.float ((5 : Int) : Rat)), [])] := by
    rw [hone, List.map_cons, List.map_cons, List.map_nil, unm_int_int5,
      unm_num_int5]
  rw [hmap] at h
  refine ⟨hne, ?_, ?_⟩
  · rw [h.1]
    rfl
  · exact h.2.2 (by decide)

/-- Schema whose only oneOf alternative succeeds with `None` on input `5`. -/
def exOneOfNone : Schema := .mk { one_of := [exNestedAny] }

/-- C10: in the oneOf loop, a successful alternative whose unmarshalled
result is `None` is indistinguishable from no match at all — the
`result is not None` sentinel never records it. Hence (1) the first
alternative succeeding with a non-`None` result wins even when preceded by
alternatives that succeeded with `None` (or failed), and (2) when every
alternative either fails or succeeds with `None`, the loop falls through to
the valid-oneOf-not-found warning and returns `None`. -/
theorem one_of_none_collapse (s : Schema) (v : PyVal) (cf : CustomFormatters)
    (strict : Bool) :
    (∀ l1 b l2, s.one_of = l1 ++ b :: l2 →
      (∀ a ∈ l1, (unmarshal a v cf true).1 = .ok PyVal.none ∨
        (unmarshal a v cf true).1 = .error .unmarshalError) →
      ∀ r, (unmarshal b v cf true).1 = .ok r → r.isNone = false →
      (_unmarshal_any s v cf strict).1 = .ok r) ∧
    (s.one_of ≠ [] →
      (∀ a ∈ s.one_of, (unmarshal a v cf true).1 = .ok PyVal.none ∨
        (unmarshal a v cf true).1 = .error .unmarshalError) →
      (_unmarshal_any s v cf strict).1 = .ok PyVal.none ∧
        .oneOfNotFound ∈ (_unmarshal_any s v cf strict).2) := by
  constructor
  · intro l1 b l2 hsplit hnones r hb hrn
    have hne : s.one_of ≠ [] := by rw [hsplit]; simp
    rw [unmarshal_any_oneOf_eq s v cf strict hne, hsplit, List.map_append,
      List.map_cons]
    have hskip : ∀ x ∈ l1.map (fun a => unmarshal a v cf true),
        x.1 = .ok PyVal.none ∨ x.1 = .error .unmarshalError := by
      intro x hx
      obtain ⟨a, ha, hae⟩ := List.mem_map.mp hx
      rw [← hae]
      exact hnones a ha
    rw [oneOfFold_skip_nones (l1.map (fun a => unmarshal a v cf true))
      _ hskip []]
    have hv2 : ∀ x ∈ l2.map (fun a => unmarshal a v cf true),
        x.1 ≠ .error .valueError := by
      intro x hx
      obtain ⟨a, ha, hae⟩ := List.mem_map.mp hx
      rw [← hae]
      exact unmarshal_ne_valueError a v cf true
    show (oneOfFold PyVal.none []
      (unmarshal b v cf true ::
        l2.map (fun a => unmarshal a v cf true))).1 = .ok r
    cases hu : unmarshal b v cf true with
    | mk rb wb =>
      rw [hu] at hb
      have hb' : rb = .ok r := hb
      subst hb'
      rw [oneOfFold_cons_ok, if_pos none_isNone]
      exact oneOfFold_locked _ r hrn hv2 ([] ++ wb)
  · intro hne hcoll
    have hv : ∀ x ∈ s.one_of.map (fun sub => unmarshal sub v cf true),
        x.1 ≠ .error .valueError := by
      intro x hx
      obtain ⟨sub, hsub, hxe⟩ := List.mem_map.mp hx
      rw [← hxe]
      exact unmarshal_ne_valueError sub v cf true
    have hnil : succList (s.one_of.map
        (fun sub => unmarshal sub v cf true)) = [] := by
      apply succList_nil_of_collapse
      intro x hx
      obtain ⟨sub, hsub, hxe⟩ := List.mem_map.mp hx
      rw [← hxe]
      exact hcoll sub hsub
    constructor
    · rw [unmarshal_any_oneOf_eq s v cf strict hne,
        oneOfFold_result _ hv [], hnil]
      rfl
    · rw [unmarshal_any_oneOf_eq s v cf strict hne]
      exact oneOfFold_notFound _ hv hnil []

/-- C10 (witness): on input `5`, `exOneOfCE`'s first alternative succeeds
with `None` yet the second alternative's result `5` is returned; and with
`exOneOfNone` every alternative succeeds with `None`, so the result is
`None` with the not-found warning. -/
theorem one_of_none_collapse_witness :
    (_unmarshal_any exOneOfCE (.int 5) [] true).1 = .ok (.int 5) ∧
    (_unmarshal_any exOneOfNone (.int 5) [] true).1 = .ok PyVal.none ∧
    .oneOfNotFound ∈ (_unmarshal_any exOneOfNone (.int 5) [] true).2 := by
  refine ⟨?_, ?_, ?_⟩
  · exact (one_of_none_collapse exOneOfCE (.int 5) [] true).1
      [exNestedAny] exIntSchema [] rfl
      (by
        intro a ha
        have ha' : a = exNestedAny := by simpa using ha
        subst ha'
        exact Or.inl (by rw [unm_nested_any]))
      (.int 5) (by rw [unm_int_int5]) rfl
  · exact ((one_of_none_collapse exOneOfNone (.int 5) [] true).2
      (by simp [exOneOfNone, Schema.one_of, Schema.data])
      (by
        intro a ha
        have ha' : a = exNestedAny := by
          simpa [exOneOfNone, Schema.one_of, Schema.data] using ha
        subst ha'
        exact Or.inl (by rw [unm_nested_any]))).1
  · exact ((one_of_none_collapse exOneOfNone (.int 5) [] true).2
      (by simp [exOneOfNone, Schema.one_of, Schema.data])
      (by
        intro a ha
        have ha' : a = exNestedAny := by
          simpa [exOneOfNone, Schema.one_of, Schema.data] using ha
        subst ha'
        exact Or.inl (by rw [unm_nested_any]))).2
